import Mathlib

/-!
Verification of the query-intent translation pipeline of the Bharat Samarth
agriculture Q&A application (src/app.py).

The embedding models, over `List Char` and exact rationals:
  * the three question templates of `plan_query` (app.py lines 101-170),
    including the Python `re.search` semantics (leftmost start position,
    greedy quantifiers with backtracking) for the exact patterns used;
  * the helper functions `norm_text`, `safe_like`, `str.lower`, `str.strip`,
    `str.title`, `int()` on a digit capture;
  * the relational queries the plans embed (DuckDB aggregate queries over the
    registered `crop` and `rain` data frames), as relational-algebra
    functions: filter, group-by with SUM/AVG (SQL NULL = `Option.none`),
    ORDER BY (descending totals place NULLs last, the DuckDB default), LIMIT;
  * the executor/synthesizer `execute_and_answer` (app.py lines 175-211):
    the pandas left merge on `year`, and the Pearson-correlation N/A decision
    (`corr is None or NaN`) via its exact sufficient statistics over ℚ.

Characters are modelled as ASCII (the Python regexes additionally accept
non-ASCII word characters; no claim depends on that).
-/

set_option maxRecDepth 100000

namespace BharatQA

/-! ### Character classes and Python string helpers (app.py lines 46-50, 102) -/

/-- Python `\s` (ASCII): space, tab, newline, carriage return, vertical tab, form feed. -/
def isWsp (c : Char) : Bool :=
  c == ' ' || c == '\t' || c == '\n' || c == '\r' || c == '\x0b' || c == '\x0c'

/-- Python `\d` (ASCII), by code point. -/
def isDigitC (c : Char) : Bool := 48 ≤ c.toNat && c.toNat ≤ 57

/-- ASCII lowercase letter, by code point. -/
def isLowerC (c : Char) : Bool := 97 ≤ c.toNat && c.toNat ≤ 122

/-- ASCII uppercase letter, by code point. -/
def isUpperC (c : Char) : Bool := 65 ≤ c.toNat && c.toNat ≤ 90

/-- Python `\w` (ASCII): letters, digits, underscore. -/
def isWordC (c : Char) : Bool :=
  isLowerC c || isUpperC c || isDigitC c || c == '_'

/-- The parameter capture class `[\w\s&.-]` used by all three templates
(app.py lines 105, 121, 158). -/
def isClsChar (c : Char) : Bool := isWordC c || isWsp c || c == '&' || c == '.' || c == '-'

/-- The single-quote character, written by code point to keep source text plain. -/
def quoteChar : Char := Char.ofNat 39

/-- Python `str.lower` on one ASCII character. -/
def lowChar (c : Char) : Char :=
  if isUpperC c then Char.ofNat (c.toNat + 32) else c

/-- Python `str.lower` (ASCII model). -/
def lowerL (l : List Char) : List Char := l.map lowChar

/-- Python `str.upper` on one ASCII character, used by `str.title`. -/
def upChar (c : Char) : Char :=
  if isLowerC c then Char.ofNat (c.toNat - 32) else c

/-- ASCII letter test, used by `str.title` to decide word boundaries. -/
def isAlphaC (c : Char) : Bool := isLowerC c || isUpperC c

/-- Python `str.strip`: drop leading and trailing whitespace. -/
def stripL (l : List Char) : List Char :=
  ((l.dropWhile isWsp).reverse.dropWhile isWsp).reverse

/-- Python `str.title` (ASCII model): a letter is uppercased when the previous
character is not a letter, lowercased otherwise. -/
def titleAux (prevAlpha : Bool) : List Char → List Char
  | [] => []
  | c :: t =>
    (if isAlphaC c then (if prevAlpha then lowChar c else upChar c) else c) ::
      titleAux (isAlphaC c) t

/-- Python `str.title` (ASCII model). -/
def titleL (l : List Char) : List Char := titleAux false l

/-- The helper `safe_like` (app.py lines 49-50): double every single quote. -/
def safeLike : List Char → List Char
  | [] => []
  | c :: t => (if c = quoteChar then [quoteChar, quoteChar] else [c]) ++ safeLike t

/-- Python `int()` on a captured digit string. -/
def natOfDigits (l : List Char) : Nat :=
  l.foldl (fun a c => a * 10 + (c.toNat - 48)) 0

/-! ### Substring search helpers (for stating and proving matcher facts) -/

/-- Decidable substring test: `w` occurs contiguously inside `s`. -/
def containsSub (w : List Char) : List Char → Bool
  | [] => w.isEmpty
  | c :: t => w.isPrefixOf (c :: t) || containsSub w t

/-- Index of the rightmost occurrence of `w` in `s`, if any. -/
def lastOcc (w : List Char) : List Char → Option Nat
  | [] => if w.isEmpty then some 0 else none
  | c :: t =>
    match lastOcc w t with
    | some k => some (k + 1)
    | none => if w.isPrefixOf (c :: t) then some 0 else none

/-- No two adjacent whitespace characters (used to state the compare-template
greedy-split fact under incidental-whitespace normal form). -/
def singleSpaced : List Char → Bool
  | [] => true
  | [_] => true
  | a :: b :: t => !(isWsp a && isWsp b) && singleSpaced (b :: t)

/-- SQL `LIKE` single-position match for the patterns built by `plan_query`:
`_` matches any one character, every other pattern character matches itself
(`%` cannot occur inside a capture, so only the implicit outer `%...%` of
`'%{crop_like}%'` needs handling, via `likeContains`). -/
def likeHere : List Char → List Char → Bool
  | [], _ => true
  | _ :: _, [] => false
  | p :: ps, c :: cs => (p == '_' || p == c) && likeHere ps cs

/-- SQL `lower(crop) LIKE '%{pat}%'` (app.py line 142): the pattern occurs at
some position of the text. -/
def likeContains (pat : List Char) : List Char → Bool
  | [] => likeHere pat []
  | c :: t => likeHere pat (c :: t) || likeContains pat t

/-! ### A backtracking matcher for the three `re.search` patterns

The three templates (app.py lines 105, 121, 158) are each a sequence of
literal words, `\s+` gaps, and greedy capture groups `(\d+)` / `([\w\s&.-]+)`,
anchored at the end by `$`.  `matchToks` matches a token sequence against the
whole remaining input with Python backtracking semantics: each quantifier
tries its longest possible extent first.  `searchToks` adds the `re.search`
behaviour of trying successive start positions, leftmost first. -/

inductive Tok where
  | lit (w : List Char)
  | ws
  | digits
  | cls
deriving DecidableEq

/-- Greedy descent for `\s+`: try consuming `k, k-1, ..., 1` characters. -/
def tryK (next : List Char → Option (List (List Char))) (s : List Char) :
    Nat → Option (List (List Char))
  | 0 => none
  | k + 1 => (next (s.drop (k + 1))).orElse (fun _ => tryK next s k)

/-- Greedy descent for a capture group: like `tryK` but records the consumed
prefix as a capture. -/
def tryCap (next : List Char → Option (List (List Char))) (s : List Char) :
    Nat → Option (List (List Char))
  | 0 => none
  | k + 1 =>
    ((next (s.drop (k + 1))).map (fun caps => s.take (k + 1) :: caps)).orElse
      (fun _ => tryCap next s k)

/-- Match a token list against the whole of `s` (the trailing `$` of every
template is built in), returning the list of captures. -/
def matchToks (toks : List Tok) : List Char → Option (List (List Char)) :=
  List.rec
    (fun s => if s.isEmpty then some [] else none)
    (fun t _ts ih => fun s =>
      match t with
      | Tok.lit w => if w.isPrefixOf s then ih (s.drop w.length) else none
      | Tok.ws => tryK ih s (s.takeWhile isWsp).length
      | Tok.digits => tryCap ih s (s.takeWhile isDigitC).length
      | Tok.cls => tryCap ih s (s.takeWhile isClsChar).length)
    toks

/-- Python `re.search`: try each start position, leftmost first. -/
def searchToks (toks : List Tok) : List Char → Option (List (List Char))
  | [] => matchToks toks []
  | c :: rest => (matchToks toks (c :: rest)).orElse (fun _ => searchToks toks rest)

/-- Template 1 (app.py line 105): `top\s+(\d+)\s+crops\s+in\s+([\w\s&.-]+)$`. -/
def patTop : List Tok :=
  [Tok.lit "top".data, Tok.ws, Tok.digits, Tok.ws, Tok.lit "crops".data, Tok.ws,
   Tok.lit "in".data, Tok.ws, Tok.cls]

/-- Template 2 (app.py line 121):
`trend\s+of\s+([\w\s&.-]+)\s+over\s+last\s+(\d+)\s+years\s+in\s+([\w\s&.-]+)$`. -/
def patTrend : List Tok :=
  [Tok.lit "trend".data, Tok.ws, Tok.lit "of".data, Tok.ws, Tok.cls, Tok.ws,
   Tok.lit "over".data, Tok.ws, Tok.lit "last".data, Tok.ws, Tok.digits, Tok.ws,
   Tok.lit "years".data, Tok.ws, Tok.lit "in".data, Tok.ws, Tok.cls]

/-- Template 3 (app.py line 158):
`compare\s+rainfall\s+between\s+([\w\s&.-]+)\s+and\s+([\w\s&.-]+)$`. -/
def patCompare : List Tok :=
  [Tok.lit "compare".data, Tok.ws, Tok.lit "rainfall".data, Tok.ws, Tok.lit "between".data,
   Tok.ws, Tok.cls, Tok.ws, Tok.lit "and".data, Tok.ws, Tok.cls]

/-- The `top N crops in <state>` matcher: digit capture and state capture. -/
def topMatch (ql : List Char) : Option (List Char × List Char) :=
  match searchToks patTop ql with
  | some [n, st] => some (n, st)
  | _ => none

/-- The `trend of <crop> over last N years in <state>` matcher. -/
def trendMatch (ql : List Char) : Option (List Char × List Char × List Char) :=
  match searchToks patTrend ql with
  | some [c, n, st] => some (c, n, st)
  | _ => none

/-- The `compare rainfall between <state1> and <state2>` matcher. -/
def compareMatch (ql : List Char) : Option (List Char × List Char) :=
  match searchToks patCompare ql with
  | some [a, b] => some (a, b)
  | _ => none

/-! ### The tabular store (app.py lines 23-24, 63-75, 90-92)

Rows are modelled after ingestion: `state`/`year` are non-null (rows missing
them are dropped at load, lines 74-75), numeric measures are
`Option ℚ` where `none` is a pandas NaN, which DuckDB sees as SQL NULL. -/

structure CropRow where
  state : List Char
  district : List Char
  crop : List Char
  production_mt : Option ℚ
  year : Int
deriving DecidableEq

structure RainRow where
  state : List Char
  year : Int
  annual : Option ℚ
deriving DecidableEq

/-- The two registered relations (app.py lines 90-92). -/
structure Tables where
  crop : List CropRow
  rain : List RainRow
deriving DecidableEq

/-! ### SQL aggregate helpers -/

/-- Total of a list of rationals (no SQL semantics of its own). -/
def qsum : List ℚ → ℚ
  | [] => 0
  | x :: t => x + qsum t

/-- SQL `SUM` over a column with NULLs: NULLs are skipped; the sum of no
non-NULL values is NULL. -/
def sumOpt (l : List (Option ℚ)) : Option ℚ :=
  let vs := l.filterMap id
  if vs.isEmpty then none else some (qsum vs)

/-- SQL `AVG` over a column with NULLs: NULLs are skipped; the average of no
non-NULL values is NULL. -/
def avgOpt (l : List (Option ℚ)) : Option ℚ :=
  let vs := l.filterMap id
  if vs.isEmpty then none else some (qsum vs / (vs.length : ℚ))

/-- Maximum of a list (pandas `Series.max`), `none` when empty. -/
def maxInt : List Int → Option Int
  | [] => none
  | y :: t =>
    match maxInt t with
    | none => some y
    | some m => some (max y m)

/-- Comparator giving `ORDER BY total DESC` with the DuckDB default
`NULLS LAST`: `none` sorts below every value. -/
def optLeB : Option ℚ → Option ℚ → Bool
  | none, _ => true
  | some _, none => false
  | some a, some b => decide (a ≤ b)

/-- Row order for `ORDER BY total_prod DESC` (app.py line 115): descending
totals, NULL totals last. -/
def descRow (a b : List Char × Option ℚ) : Prop := optLeB b.2 a.2 = true

instance : DecidableRel descRow := fun a b => Bool.decEq (optLeB b.2 a.2) true

/-- Row order for `ORDER BY year` (app.py lines 145, 152): ascending year. -/
def yearRow (a b : Int × Option ℚ) : Prop := a.1 ≤ b.1

instance : DecidableRel yearRow := fun a b => Int.decLe a.1 b.1

/-! ### Query execution (the three SQL texts of `plan_query`, run by DuckDB) -/

/-- The `top_crops` query (app.py lines 110-117):
`SELECT crop, SUM(production_mt) FROM crop WHERE lower(state) = state_like
GROUP BY crop ORDER BY total_prod DESC LIMIT n`. -/
def runTop (crop : List CropRow) (n : Nat) (stateLike : List Char) :
    List (List Char × Option ℚ) :=
  let rows := crop.filter (fun r => lowerL r.state == stateLike)
  let keys := (rows.map (fun r => r.crop)).dedup
  let agg := keys.map (fun c => (c, sumOpt ((rows.filter (fun r => r.crop == c)).map
    (fun r => r.production_mt))))
  (List.insertionSort descRow agg).take n

/-- The trend production query (app.py lines 139-146):
`SELECT year, SUM(production_mt) FROM crop WHERE lower(crop) LIKE like_pat
AND lower(state) = state_like AND year BETWEEN mn AND mx
GROUP BY year ORDER BY year`. -/
def prodSeries (crop : List CropRow) (cropLike stateLike : List Char) (mn mx : Int) :
    List (Int × Option ℚ) :=
  let rows := crop.filter (fun r =>
    likeContains cropLike (lowerL r.crop) && lowerL r.state == stateLike &&
      decide (mn ≤ r.year) && decide (r.year ≤ mx))
  let keys := (rows.map (fun r => r.year)).dedup
  List.insertionSort yearRow (keys.map (fun y => (y, sumOpt ((rows.filter
    (fun r => r.year == y)).map (fun r => r.production_mt)))))

/-- The trend rainfall query (app.py lines 147-153):
`SELECT year, AVG(annual) FROM rain WHERE lower(state) = state_like
AND year BETWEEN mn AND mx GROUP BY year ORDER BY year`. -/
def rainSeries (rain : List RainRow) (stateLike : List Char) (mn mx : Int) :
    List (Int × Option ℚ) :=
  let rows := rain.filter (fun r =>
    lowerL r.state == stateLike && decide (mn ≤ r.year) && decide (r.year ≤ mx))
  let keys := (rows.map (fun r => r.year)).dedup
  List.insertionSort yearRow (keys.map (fun y => (y, avgOpt ((rows.filter
    (fun r => r.year == y)).map (fun r => r.annual)))))

/-- The `compare_rain` query (app.py lines 162-167):
`SELECT state, AVG(annual) FROM rain WHERE lower(state) IN (s1l, s2l)
GROUP BY state` (group order left as first appearance). -/
def runCompare (rain : List RainRow) (s1l s2l : List Char) :
    List (List Char × Option ℚ) :=
  let rows := rain.filter (fun r => lowerL r.state == s1l || lowerL r.state == s2l)
  let keys := (rows.map (fun r => r.state)).dedup
  keys.map (fun st => (st, avgOpt ((rows.filter (fun r => r.state == st)).map
    (fun r => r.annual))))

/-- Lookup of the rainfall value for a year in the rainfall series: the value
of the first (here: only) row with that year, absent when the year is missing
or its average is NULL. -/
def rainLookup (dfr : List (Int × Option ℚ)) (y : Int) : Option ℚ :=
  (dfr.find? (fun yr => yr.1 == y)).bind (fun yr => yr.2)

/-- The pandas `dfp.merge(dfr, on="year", how="left")` of app.py line 191:
every left row is kept in order; a left row with no matching year on the
right carries an absent rainfall value; right rows without a matching left
year are dropped. -/
def leftJoin (dfp dfr : List (Int × Option ℚ)) : List (Int × Option ℚ × Option ℚ) :=
  match dfp with
  | [] => []
  | yp :: t =>
    (match dfr.filter (fun yr => yr.1 == yp.1) with
     | [] => [(yp.1, yp.2, none)]
     | ms => ms.map (fun yr => (yp.1, yp.2, yr.2))) ++ leftJoin t dfr

/-! ### Correlation (app.py lines 192-193)

`merged["total_prod"].corr(merged["avg_rain"])` drops the rows where either
value is absent and computes the Pearson coefficient over the rest; the float
result is NaN exactly when there are no complete rows or when a variance is
zero, and the code renders `corr_txt = "N/A"` when the result is `None`
(empty frame) or NaN.  `corrOf` returns `none` in precisely the N/A cases and
otherwise the exact sufficient statistics `(covariance numerator,
x-variance numerator, y-variance numerator)` that determine the displayed
coefficient `cov / (sqrt varX * sqrt varY)`. -/

/-- Rows of the merged frame where both values are present. -/
def pairsOf (merged : List (Int × Option ℚ × Option ℚ)) : List (ℚ × ℚ) :=
  merged.filterMap (fun r =>
    match r.2.1, r.2.2 with
    | some a, some b => some (a, b)
    | _, _ => none)

/-- Scaled variance numerator of the first coordinates:
`n * Σ x² - (Σ x)²`; zero exactly when the sample variance is undefined or
zero. -/
def varXnum (ps : List (ℚ × ℚ)) : ℚ :=
  (ps.length : ℚ) * qsum (ps.map (fun p => p.1 * p.1)) -
    qsum (ps.map (fun p => p.1)) * qsum (ps.map (fun p => p.1))

/-- Scaled variance numerator of the second coordinates. -/
def varYnum (ps : List (ℚ × ℚ)) : ℚ :=
  (ps.length : ℚ) * qsum (ps.map (fun p => p.2 * p.2)) -
    qsum (ps.map (fun p => p.2)) * qsum (ps.map (fun p => p.2))

/-- Scaled covariance numerator: `n * Σ xy - Σ x * Σ y`. -/
def covNum (ps : List (ℚ × ℚ)) : ℚ :=
  (ps.length : ℚ) * qsum (ps.map (fun p => p.1 * p.2)) -
    qsum (ps.map (fun p => p.1)) * qsum (ps.map (fun p => p.2))

/-- The correlation field of a trend answer: `none` models the rendered
"N/A" (app.py line 193), `some` the statistics of a well-defined rounded
coefficient. -/
def corrOf (merged : List (Int × Option ℚ × Option ℚ)) : Option (ℚ × ℚ × ℚ) :=
  if merged.isEmpty then none
  else
    let ps := pairsOf merged
    if varXnum ps = 0 ∨ varYnum ps = 0 then none
    else some (covNum ps, varXnum ps, varYnum ps)

/-! ### The planner (app.py lines 101-170) -/

/-- A query plan, mirroring the dict returned by `plan_query`: the display
fields (title-cased names, resolved year bounds) plus the normalized
parameters that the SQL texts embed. -/
inductive Plan where
  | topCrops (n : Nat) (stateLike : List Char) (state : List Char)
  | trend (cropLike stateLike : List Char) (crop state : List Char) (minYear maxYear : Int)
  | compareRain (s1l s2l : List Char) (s1 s2 : List Char)
  | unknown
deriving DecidableEq

/-- The parameter strings a plan embeds into its SQL texts. -/
def planParams : Plan → List (List Char)
  | Plan.topCrops _ sl _ => [sl]
  | Plan.trend cl sl _ _ _ _ => [cl, sl]
  | Plan.compareRain s1l s2l _ _ => [s1l, s2l]
  | Plan.unknown => []

/-- `plan_query` (app.py lines 101-170): lower-case and strip the question,
try the three templates in order, first match wins; the trend branch resolves
the year window from the year maxima of the two relations and returns the
unknown plan when both are empty (lines 126-134). -/
def planQuery (t : Tables) (q : List Char) : Plan :=
  let ql := stripL (lowerL q)
  match topMatch ql with
  | some (nStr, state) =>
    Plan.topCrops (natOfDigits nStr) (safeLike (lowerL (stripL state)))
      (titleL (stripL state))
  | none =>
    match trendMatch ql with
    | some (cropName, nStr, state) =>
      let cands : List Int :=
        (match maxInt (t.crop.map (fun r => r.year)) with
         | some m => [m]
         | none => []) ++
        (match maxInt (t.rain.map (fun r => r.year)) with
         | some m => [m]
         | none => [])
      (match maxInt cands with
       | none => Plan.unknown
       | some maxY =>
         let n := natOfDigits nStr
         Plan.trend (safeLike (lowerL (stripL cropName))) (safeLike (lowerL (stripL state)))
           (titleL (stripL cropName)) (titleL (stripL state))
           (maxY - (n : Int) + 1) maxY)
    | none =>
      match compareMatch ql with
      | some (s1, s2) =>
        Plan.compareRain (safeLike (lowerL (stripL s1))) (safeLike (lowerL (stripL s2)))
          (titleL (stripL s1)) (titleL (stripL s2))
      | none => Plan.unknown

/-! ### Executor and synthesizer (app.py lines 175-211) -/

/-- An answer, one constructor per return branch of `execute_and_answer`:
`help` is the fixed unknown-intent help text with no table (line 177);
`noCropData` the informational empty-result message with an empty table
(line 182); `topList` the heading plus bullets with the result table
(lines 183-186); `trendAns` the trend heading with the correlation line and
the merged table (lines 194-200); `noRainData` the empty comparison message
(line 205); `compareAns` the comparison bullets (lines 206-209). -/
inductive Narr where
  | help
  | noCropData (state : List Char)
  | topList (n : Nat) (state : List Char) (rows : List (List Char × Option ℚ))
  | trendAns (crop state : List Char) (years : Int × Int) (corr : Option (ℚ × ℚ × ℚ))
      (rows : List (Int × Option ℚ × Option ℚ))
  | noRainData
  | compareAns (s1 s2 : List Char) (rows : List (List Char × Option ℚ))
deriving DecidableEq

/-- `execute_and_answer` (app.py lines 175-211). -/
def execAnswer (t : Tables) : Plan → Narr
  | Plan.unknown => Narr.help
  | Plan.topCrops n sl st =>
    let df := runTop t.crop n sl
    if df.isEmpty then Narr.noCropData st else Narr.topList n st df
  | Plan.trend cl sl c s mn mx =>
    let dfp := prodSeries t.crop cl sl mn mx
    let dfr := rainSeries t.rain sl mn mx
    let merged := leftJoin dfp dfr
    Narr.trendAns c s (mn, mx) (corrOf merged) merged
  | Plan.compareRain s1l s2l s1 s2 =>
    let df := runCompare t.rain s1l s2l
    if df.isEmpty then Narr.noRainData else Narr.compareAns s1 s2 df

/-- The full per-question pipeline: plan, then execute and synthesize. -/
def ask (t : Tables) (q : List Char) : Narr := execAnswer t (planQuery t q)

/-- Years column of the table attached to a trend answer (used to state facts
about the merged table without spelling its rational cells). -/
def trendYears : Narr → List Int
  | Narr.trendAns _ _ _ _ rows => rows.map (fun r => r.1)
  | _ => []

/-- Characters of an ordinary state name as used in stated templates:
lowercase ASCII letters and plain spaces. -/
def isStateNameChar (c : Char) : Bool := isLowerC c || c == ' '

/-! ### Concrete stores used by witnesses and counterexamples -/

/-- The empty store. -/
def emptyTables : Tables := ⟨[], []⟩

/-- Shorthand crop row constructor for fixtures. -/
def mkCrop (st cp : String) (p : ℚ) (y : Int) : CropRow :=
  ⟨st.data, "d".data, cp.data, some p, y⟩

/-- Shorthand rain row constructor for fixtures. -/
def mkRain (st : String) (y : Int) (a : ℚ) : RainRow := ⟨st.data, y, some a⟩

/-- Fixture: one Punjab wheat row in 2020, one Punjab rainfall row in 2021,
so the production and rainfall series of a Punjab wheat trend have disjoint
years. -/
def storeJoin : Tables := ⟨[mkCrop "Punjab" "Wheat" 5 2020], [mkRain "Punjab" 2021 7]⟩

/-- Fixture: two Punjab crops and one Goa crop. -/
def storeTop : Tables :=
  ⟨[mkCrop "Punjab" "Wheat" 10 2020, mkCrop "Punjab" "Rice" 5 2020,
    mkCrop "Goa" "Coconut" 100 2020], []⟩

/-- Fixture: crop years up to 2020, rain years up to 2022, for window
resolution across both relations. -/
def storeYears : Tables :=
  ⟨[mkCrop "Punjab" "Wheat" 10 2018, mkCrop "Punjab" "Wheat" 4 2020],
   [mkRain "Punjab" 2021 7, mkRain "Punjab" 2022 9]⟩

/-! ## Lemma layer -/

/-! ### Prefix and substring facts -/

theorem isPrefixOf_nil_left (l : List Char) : List.isPrefixOf [] l = true := by
  cases l <;> rfl

theorem isPrefixOf_cons_cons (c d : Char) (w v : List Char) :
    (c :: w).isPrefixOf (d :: v) = ((c == d) && w.isPrefixOf v) := rfl

theorem isPrefixOf_append_self (w r : List Char) : w.isPrefixOf (w ++ r) = true := by
  induction w with
  | nil => exact isPrefixOf_nil_left r
  | cons c t ih => simp [isPrefixOf_cons_cons, ih]

theorem eq_append_drop_of_isPrefixOf {w l : List Char} (h : w.isPrefixOf l = true) :
    l = w ++ l.drop w.length := by
  induction w generalizing l with
  | nil => simp
  | cons c t ih =>
    cases l with
    | nil => simp [List.isPrefixOf] at h
    | cons d v =>
      rw [isPrefixOf_cons_cons, Bool.and_eq_true, beq_iff_eq] at h
      obtain ⟨rfl, h2⟩ := h
      simpa using ih h2

theorem length_le_of_isPrefixOf {w l : List Char} (h : w.isPrefixOf l = true) :
    w.length ≤ l.length := by
  induction w generalizing l with
  | nil => simp
  | cons c t ih =>
    cases l with
    | nil => simp [List.isPrefixOf] at h
    | cons d v =>
      rw [isPrefixOf_cons_cons, Bool.and_eq_true] at h
      simpa using ih h.2

theorem mem_of_isPrefixOf {w l : List Char} {c : Char} (h : w.isPrefixOf l = true)
    (hc : c ∈ w) : c ∈ l := by
  rw [eq_append_drop_of_isPrefixOf h]
  exact List.mem_append_left _ hc

theorem head_eq_of_isPrefixOf {c : Char} {w l : List Char}
    (h : (c :: w).isPrefixOf l = true) : l.head? = some c := by
  cases l with
  | nil => simp [List.isPrefixOf] at h
  | cons d v =>
    rw [isPrefixOf_cons_cons, Bool.and_eq_true, beq_iff_eq] at h
    simp [h.1]

theorem isPrefixOf_append_left {w A B : List Char} (h : w.isPrefixOf (A ++ B) = true)
    (hlen : w.length ≤ A.length) : w.isPrefixOf A = true := by
  induction w generalizing A with
  | nil => exact isPrefixOf_nil_left A
  | cons c t ih =>
    cases A with
    | nil => simp at hlen
    | cons a A2 =>
      rw [List.cons_append, isPrefixOf_cons_cons, Bool.and_eq_true] at h
      rw [isPrefixOf_cons_cons, Bool.and_eq_true]
      exact ⟨h.1, ih h.2 (by simpa using hlen)⟩

theorem split_of_isPrefixOf_append {w A B : List Char} (h : w.isPrefixOf (A ++ B) = true)
    (hlen : A.length < w.length) :
    A.isPrefixOf w = true ∧ (w.drop A.length).isPrefixOf B = true := by
  induction A generalizing w with
  | nil => simpa [isPrefixOf_nil_left] using h
  | cons a A2 ih =>
    cases w with
    | nil => simp at hlen
    | cons c t =>
      rw [List.cons_append, isPrefixOf_cons_cons, Bool.and_eq_true] at h
      have := ih h.2 (by simpa using hlen)
      refine ⟨?_, by simpa using this.2⟩
      rw [isPrefixOf_cons_cons, Bool.and_eq_true]
      exact ⟨by rw [beq_iff_eq] at h ⊢; exact (h.1).symm, this.1⟩

theorem containsSub_of_isPrefixOf {w s : List Char} (h : w.isPrefixOf s = true) :
    containsSub w s = true := by
  cases s with
  | nil =>
    cases w with
    | nil => rfl
    | cons c t => simp [List.isPrefixOf] at h
  | cons c t => simp [containsSub, h]

theorem exists_isPrefixOf_of_containsSub {w s : List Char} (h : containsSub w s = true) :
    ∃ i, w.isPrefixOf (s.drop i) = true := by
  induction s with
  | nil =>
    refine ⟨0, ?_⟩
    simp [containsSub] at h
    simp [h]
  | cons c t ih =>
    rw [containsSub, Bool.or_eq_true] at h
    rcases h with h | h
    · exact ⟨0, h⟩
    · obtain ⟨i, hi⟩ := ih h
      exact ⟨i + 1, hi⟩

theorem containsSub_drop {w s : List Char} {k : Nat}
    (h : containsSub w (s.drop k) = true) : containsSub w s = true := by
  induction s generalizing k with
  | nil => simpa using h
  | cons c t ih =>
    cases k with
    | zero => simpa using h
    | succ k2 =>
      rw [List.drop_succ_cons] at h
      rw [containsSub, Bool.or_eq_true]
      exact Or.inr (ih h)

theorem containsSub_all {w Z : List Char} {p : Char → Bool}
    (h : containsSub w Z = true) (hZ : Z.all p = true) : w.all p = true := by
  obtain ⟨i, hi⟩ := exists_isPrefixOf_of_containsSub h
  rw [List.all_eq_true] at hZ ⊢
  intro c hc
  exact hZ c ((List.drop_sublist i Z).mem (mem_of_isPrefixOf hi hc))

theorem containsSub_append_cases {w X Y : List Char} (h : containsSub w (X ++ Y) = true) :
    containsSub w X = true ∨ containsSub w Y = true ∨
      ∃ w1 w2, w = w1 ++ w2 ∧ w1 ≠ [] ∧ w2 ≠ [] ∧
        (∃ X1, X = X1 ++ w1) ∧ w2.isPrefixOf Y = true := by
  induction X with
  | nil => simpa using Or.inr (Or.inl (by simpa using h))
  | cons c X2 ih =>
    rw [List.cons_append, containsSub, Bool.or_eq_true] at h
    rcases h with h | h
    · rcases Nat.lt_or_ge (c :: X2).length w.length with hlen | hlen
      · obtain ⟨h1, h2⟩ := split_of_isPrefixOf_append (by simpa using h) hlen
        refine Or.inr (Or.inr ⟨c :: X2, w.drop (c :: X2).length, ?_, by simp, ?_, ⟨[], by simp⟩, h2⟩)
        · exact eq_append_drop_of_isPrefixOf h1
        · intro hemp
          have := List.length_eq_zero.mpr hemp
          rw [List.length_drop] at this
          omega
      · exact Or.inl (containsSub_of_isPrefixOf
          (isPrefixOf_append_left (by simpa using h) hlen))
    · rcases ih h with h2 | h2 | ⟨w1, w2, hsplit, hne1, hne2, ⟨X1, hX1⟩, hpre⟩
      · exact Or.inl (containsSub_drop (k := 1) (by simpa using h2))
      · exact Or.inr (Or.inl h2)
      · exact Or.inr (Or.inr ⟨w1, w2, hsplit, hne1, hne2, ⟨c :: X1, by simp [hX1]⟩, hpre⟩)

theorem mem_of_getLastQ {l : List Char} {c : Char} (h : l.getLast? = some c) : c ∈ l := by
  induction l with
  | nil => simp at h
  | cons d t ih =>
    cases t with
    | nil =>
      simp [List.getLast?] at h
      simp [h]
    | cons e u =>
      rw [List.getLast?_cons_cons] at h
      exact List.mem_cons_of_mem _ (ih h)

theorem no_straddle_last {w w1 w2 X : List Char} {c0 : Char}
    (hsplit : w = w1 ++ w2) (hne : w1 ≠ []) (hX1 : ∃ X1, X = X1 ++ w1)
    (hlast : X.getLast? = some c0) (hw : c0 ∉ w) : False := by
  obtain ⟨X1, rfl⟩ := hX1
  rw [List.getLast?_append_of_ne_nil X1 hne] at hlast
  exact hw (hsplit ▸ List.mem_append_left _ (mem_of_getLastQ hlast))

theorem no_straddle_head {w w1 w2 Y : List Char} {c0 : Char}
    (hsplit : w = w1 ++ w2) (hne : w2 ≠ []) (hpre : w2.isPrefixOf Y = true)
    (hY : Y.head? = some c0) (hw : c0 ∉ w) : False := by
  cases w2 with
  | nil => exact hne rfl
  | cons c t =>
    have := head_eq_of_isPrefixOf hpre
    rw [hY] at this
    obtain rfl : c0 = c := by simpa using this
    exact hw (hsplit ▸ List.mem_append_right _ (by simp))

theorem no_straddle_all {w w1 w2 X : List Char} {p : Char → Bool}
    (hsplit : w = w1 ++ w2) (hne : w1 ≠ []) (hX1 : ∃ X1, X = X1 ++ w1)
    (hX : X.all p = true) (hw : w.all (fun ch => !(p ch)) = true) : False := by
  cases w1 with
  | nil => exact hne rfl
  | cons c t =>
    obtain ⟨X1, rfl⟩ := hX1
    have hcX : c ∈ X1 ++ (c :: t) := List.mem_append_right _ (by simp)
    have hcw : c ∈ w := hsplit ▸ List.mem_append_left _ (by simp)
    rw [List.all_eq_true] at hX hw
    have := hw c hcw
    rw [hX c hcX] at this
    simp at this

/-! ### Engine unfolding equations and structural facts -/

theorem matchToks_nil (s : List Char) :
    matchToks [] s = (if s.isEmpty then some [] else none) := rfl

theorem matchToks_lit (w : List Char) (ts : List Tok) (s : List Char) :
    matchToks (Tok.lit w :: ts) s =
      (if w.isPrefixOf s then matchToks ts (s.drop w.length) else none) := rfl

theorem matchToks_ws (ts : List Tok) (s : List Char) :
    matchToks (Tok.ws :: ts) s = tryK (matchToks ts) s (s.takeWhile isWsp).length := rfl

theorem matchToks_digits (ts : List Tok) (s : List Char) :
    matchToks (Tok.digits :: ts) s =
      tryCap (matchToks ts) s (s.takeWhile isDigitC).length := rfl

theorem matchToks_cls (ts : List Tok) (s : List Char) :
    matchToks (Tok.cls :: ts) s =
      tryCap (matchToks ts) s (s.takeWhile isClsChar).length := rfl

theorem tryK_some {next : List Char → Option (List (List Char))} {s : List Char} {m : Nat}
    {r : List (List Char)} (h : tryK next s m = some r) :
    ∃ k, 1 ≤ k ∧ k ≤ m ∧ next (s.drop k) = some r := by
  induction m with
  | zero => simp [tryK] at h
  | succ m2 ih =>
    rw [tryK] at h
    cases hx : next (s.drop (m2 + 1)) with
    | some v =>
      rw [hx] at h
      simp [Option.orElse] at h
      exact ⟨m2 + 1, by omega, Nat.le_refl _, by rw [hx, h]⟩
    | none =>
      rw [hx] at h
      simp [Option.orElse] at h
      obtain ⟨k, h1, h2, h3⟩ := ih h
      exact ⟨k, h1, by omega, h3⟩

theorem tryCap_some {next : List Char → Option (List (List Char))} {s : List Char} {m : Nat}
    {r : List (List Char)} (h : tryCap next s m = some r) :
    ∃ k caps, 1 ≤ k ∧ k ≤ m ∧ next (s.drop k) = some caps ∧ r = s.take k :: caps := by
  induction m with
  | zero => simp [tryCap] at h
  | succ m2 ih =>
    rw [tryCap] at h
    cases hx : next (s.drop (m2 + 1)) with
    | some v =>
      rw [hx] at h
      simp [Option.orElse] at h
      exact ⟨m2 + 1, v, by omega, Nat.le_refl _, hx, h.symm⟩
    | none =>
      rw [hx] at h
      simp [Option.orElse] at h
      obtain ⟨k, caps, h1, h2, h3, h4⟩ := ih h
      exact ⟨k, caps, h1, by omega, h3, h4⟩

theorem tryCap_eq_of_max {next : List Char → Option (List (List Char))} {s : List Char}
    {k m : Nat} {caps : List (List Char)}
    (hnone : ∀ j, k < j → j ≤ m → next (s.drop j) = none)
    (hk : next (s.drop k) = some caps) (h1 : 1 ≤ k) (hm : k ≤ m) :
    tryCap next s m = some (s.take k :: caps) := by
  induction m with
  | zero => omega
  | succ m2 ih =>
    rw [tryCap]
    rcases Nat.eq_or_lt_of_le hm with rfl | hlt
    · rw [hk]
      simp [Option.orElse]
    · rw [hnone (m2 + 1) (by omega) (Nat.le_refl _)]
      simp only [Option.map_none, Option.orElse]
      exact ih (fun j hj1 hj2 => hnone j hj1 (by omega)) (by omega)

theorem take_all_of_takeWhile {p : Char → Bool} {s : List Char} {k : Nat}
    (h : k ≤ (s.takeWhile p).length) : (s.take k).all p = true := by
  induction s generalizing k with
  | nil => simp
  | cons c t ih =>
    cases k with
    | zero => simp
    | succ k2 =>
      by_cases hc : p c = true
      · rw [List.takeWhile_cons_of_pos hc] at h
        simp only [List.take_succ_cons, List.all_cons, hc, Bool.true_and]
        exact ih (by simpa using h)
      · rw [List.takeWhile_cons_of_neg hc] at h
        simp at h

theorem matchToks_lit_contains {toks : List Tok} {s caps w : List Char}
    {cps : List (List Char)} (h : matchToks toks s = some cps)
    (hmem : Tok.lit w ∈ toks) (hw : w = caps) : containsSub caps s = true := by
  subst hw
  induction toks generalizing s cps with
  | nil => simp at hmem
  | cons t ts ih =>
    rcases List.mem_cons.mp hmem with heq | hmem2
    · cases heq
      rw [matchToks_lit] at h
      cases hp : w.isPrefixOf s with
      | true => exact containsSub_of_isPrefixOf hp
      | false => rw [hp] at h; simp at h
    · cases t with
      | lit w2 =>
        rw [matchToks_lit] at h
        cases hp : w2.isPrefixOf s with
        | true =>
          rw [hp] at h
          simp only [if_true] at h
          exact containsSub_drop (ih h hmem2)
        | false => rw [hp] at h; simp at h
      | ws =>
        rw [matchToks_ws] at h
        obtain ⟨k, _, _, h3⟩ := tryK_some h
        exact containsSub_drop (ih h3 hmem2)
      | digits =>
        rw [matchToks_digits] at h
        obtain ⟨k, caps2, _, _, h3, _⟩ := tryCap_some h
        exact containsSub_drop (ih h3 hmem2)
      | cls =>
        rw [matchToks_cls] at h
        obtain ⟨k, caps2, _, _, h3, _⟩ := tryCap_some h
        exact containsSub_drop (ih h3 hmem2)

theorem searchToks_lit_contains {toks : List Tok} {s w : List Char}
    {cps : List (List Char)} (h : searchToks toks s = some cps)
    (hmem : Tok.lit w ∈ toks) : containsSub w s = true := by
  induction s with
  | nil => exact matchToks_lit_contains h hmem rfl
  | cons c t ih =>
    rw [searchToks] at h
    cases hx : matchToks toks (c :: t) with
    | some v =>
      exact matchToks_lit_contains hx hmem rfl
    | none =>
      rw [hx] at h
      simp [Option.orElse] at h
      rw [containsSub, Bool.or_eq_true]
      exact Or.inr (ih h)

theorem searchToks_none_of_no_lit {toks : List Tok} {s w : List Char}
    (hmem : Tok.lit w ∈ toks) (hno : containsSub w s = false) :
    searchToks toks s = none := by
  cases h : searchToks toks s with
  | none => rfl
  | some cps =>
    rw [searchToks_lit_contains h hmem] at hno
    exact absurd hno (by simp)

theorem clsChar_of_digitC {c : Char} (h : isDigitC c = true) : isClsChar c = true := by
  simp [isClsChar, isWordC, h]

theorem matchToks_caps_cls {toks : List Tok} {s : List Char} {cps : List (List Char)}
    (h : matchToks toks s = some cps) : ∀ cp ∈ cps, cp.all isClsChar = true := by
  induction toks generalizing s cps with
  | nil =>
    rw [matchToks_nil] at h
    cases hs : s.isEmpty with
    | true =>
      rw [hs] at h
      simp only [if_true, Option.some_inj] at h
      subst h
      simp
    | false => rw [hs] at h; simp at h
  | cons t ts ih =>
    cases t with
    | lit w =>
      rw [matchToks_lit] at h
      cases hp : w.isPrefixOf s with
      | true =>
        rw [hp] at h
        simp only [if_true] at h
        exact ih h
      | false => rw [hp] at h; simp at h
    | ws =>
      rw [matchToks_ws] at h
      obtain ⟨k, _, _, h3⟩ := tryK_some h
      exact ih h3
    | digits =>
      rw [matchToks_digits] at h
      obtain ⟨k, caps2, _, hk, h3, rfl⟩ := tryCap_some h
      intro cp hcp
      rcases List.mem_cons.mp hcp with rfl | hcp2
      · have := take_all_of_takeWhile (p := isDigitC) (s := s) (k := k) hk
        rw [List.all_eq_true] at this ⊢
        exact fun c hc => clsChar_of_digitC (this c hc)
      · exact ih h3 cp hcp2
    | cls =>
      rw [matchToks_cls] at h
      obtain ⟨k, caps2, _, hk, h3, rfl⟩ := tryCap_some h
      intro cp hcp
      rcases List.mem_cons.mp hcp with rfl | hcp2
      · exact take_all_of_takeWhile hk
      · exact ih h3 cp hcp2

theorem searchToks_caps_cls {toks : List Tok} {s : List Char} {cps : List (List Char)}
    (h : searchToks toks s = some cps) : ∀ cp ∈ cps, cp.all isClsChar = true := by
  induction s with
  | nil => exact matchToks_caps_cls h
  | cons c t ih =>
    rw [searchToks] at h
    cases hx : matchToks toks (c :: t) with
    | some v => rw [hx] at h; simp [Option.orElse] at h; subst h; exact matchToks_caps_cls hx
    | none =>
      rw [hx] at h
      simp [Option.orElse] at h
      exact ih h

/-! ### Rightmost-occurrence facts -/

theorem lastOcc_isPrefixOf {w s : List Char} {k : Nat} (h : lastOcc w s = some k) :
    w.isPrefixOf (s.drop k) = true := by
  induction s generalizing k with
  | nil =>
    rw [lastOcc] at h
    cases hw : w.isEmpty with
    | true =>
      rw [hw] at h
      simp only [if_true, Option.some_inj] at h
      subst h
      cases w with
      | nil => rfl
      | cons c t => simp at hw
    | false => rw [hw] at h; simp at h
  | cons c t ih =>
    rw [lastOcc] at h
    cases hx : lastOcc w t with
    | some k2 =>
      rw [hx] at h
      simp only [Option.some_inj] at h
      subst h
      rw [List.drop_succ_cons]
      exact ih hx
    | none =>
      rw [hx] at h
      cases hp : w.isPrefixOf (c :: t) with
      | true =>
        rw [hp] at h
        simp only [if_true, Option.some_inj] at h
        subst h
        exact hp
      | false => rw [hp] at h; simp at h

theorem lastOcc_none {w s : List Char} (h : lastOcc w s = none) (hw : w ≠ []) :
    ∀ i, w.isPrefixOf (s.drop i) = false := by
  induction s with
  | nil =>
    intro i
    cases w with
    | nil => exact absurd rfl hw
    | cons c t => simp
  | cons c t ih =>
    rw [lastOcc] at h
    cases hx : lastOcc w t with
    | some k2 => rw [hx] at h; simp at h
    | none =>
      rw [hx] at h
      intro i
      cases i with
      | zero =>
        cases hp : w.isPrefixOf (c :: t) with
        | true => rw [hp] at h; simp at h
        | false => simpa using hp
      | succ i2 =>
        rw [List.drop_succ_cons]
        exact ih hx i2

theorem lastOcc_last {w s : List Char} {k j : Nat} (h : lastOcc w s = some k)
    (hj : k < j) (hw : w ≠ []) : w.isPrefixOf (s.drop j) = false := by
  induction s generalizing k j with
  | nil =>
    cases w with
    | nil => exact absurd rfl hw
    | cons c t => simp
  | cons c t ih =>
    rw [lastOcc] at h
    cases hx : lastOcc w t with
    | some k2 =>
      rw [hx] at h
      simp only [Option.some_inj] at h
      subst h
      cases j with
      | zero => omega
      | succ j2 =>
        rw [List.drop_succ_cons]
        exact ih hx (by omega)
    | none =>
      rw [hx] at h
      cases j with
      | zero => omega
      | succ j2 =>
        rw [List.drop_succ_cons]
        exact lastOcc_none hx hw j2

/-! ### Maximum facts -/

theorem maxInt_mem {l : List Int} {m : Int} (h : maxInt l = some m) : m ∈ l := by
  induction l generalizing m with
  | nil => simp [maxInt] at h
  | cons y t ih =>
    rw [maxInt] at h
    cases hx : maxInt t with
    | none => rw [hx] at h; simp only [Option.some_inj] at h; simp [h.symm]
    | some m2 =>
      rw [hx] at h
      simp only [Option.some_inj] at h
      subst h
      rcases max_cases y m2 with ⟨he, _⟩ | ⟨he, _⟩
      · simp [he]
      · rw [he]
        exact List.mem_cons_of_mem _ (ih hx)

theorem maxInt_ge {l : List Int} {m : Int} (h : maxInt l = some m) : ∀ y ∈ l, y ≤ m := by
  induction l generalizing m with
  | nil => simp
  | cons y t ih =>
    rw [maxInt] at h
    cases hx : maxInt t with
    | none =>
      rw [hx] at h
      simp only [Option.some_inj] at h
      subst h
      intro z hz
      rcases List.mem_cons.mp hz with rfl | hz2
      · exact le_refl z
      · cases t with
        | nil => simp at hz2
        | cons a b =>
          exfalso
          rw [maxInt] at hx
          cases h2 : maxInt b <;> rw [h2] at hx <;> simp at hx
    | some m2 =>
      rw [hx] at h
      simp only [Option.some_inj] at h
      subst h
      intro z hz
      rcases List.mem_cons.mp hz with rfl | hz2
      · exact le_max_left _ _
      · exact le_trans (ih hx z hz2) (le_max_right _ _)

theorem maxInt_append (A B : List Int) :
    maxInt (A ++ B) =
      match maxInt A, maxInt B with
      | none, x => x
      | some a, none => some a
      | some a, some b => some (max a b) := by
  induction A with
  | nil =>
    rw [List.nil_append]
    cases maxInt B <;> rfl
  | cons y t ih =>
    rw [List.cons_append, maxInt, ih, maxInt]
    cases maxInt t <;> cases maxInt B <;> simp [max_assoc]

/-! ### Order-relation instances for the two ORDER BY comparators -/

instance : IsTotal (List Char × Option ℚ) descRow :=
  ⟨by
    intro a b
    unfold descRow optLeB
    cases a.2 with
    | none => cases b.2 <;> simp
    | some x =>
      cases b.2 with
      | none => simp
      | some y =>
        rcases le_total x y with h | h
        · exact Or.inr (by simp [h])
        · exact Or.inl (by simp [h])⟩

instance : IsTrans (List Char × Option ℚ) descRow :=
  ⟨by
    intro a b c hab hbc
    unfold descRow optLeB at hab hbc ⊢
    cases ha : a.2 with
    | none =>
      rw [ha] at hab
      cases hb : b.2 with
      | none =>
        rw [hb] at hbc
        cases hc : c.2 with
        | none => simp
        | some z => rw [hc] at hbc; simp at hbc
      | some y => rw [hb] at hab; simp at hab
    | some x =>
      rw [ha] at hab
      cases hc : c.2 with
      | none => simp
      | some z =>
        rw [hc] at hbc
        cases hb : b.2 with
        | none => rw [hb] at hbc; simp at hbc
        | some y =>
          rw [hb] at hab hbc
          simp only [decide_eq_true_eq] at hab hbc ⊢
          exact le_trans hbc hab⟩

instance : IsTotal (Int × Option ℚ) yearRow :=
  ⟨fun a b => Int.le_total a.1 b.1⟩

instance : IsTrans (Int × Option ℚ) yearRow :=
  ⟨fun _ _ _ hab hbc => le_trans hab hbc⟩

/-! ### Auxiliary facts about the correlation statistics -/

theorem varXnum_zero_of_short {ps : List (ℚ × ℚ)} (h : ps.length < 2) : varXnum ps = 0 := by
  match ps, h with
  | [], _ => simp [varXnum, qsum]
  | [p], _ =>
    simp only [varXnum, List.map_cons, List.map_nil, qsum, List.length_cons,
      List.length_nil]
    push_cast
    ring

/-! ## Claim theorems -/

/-- Claim C4, counterexample: the input `top 0 crops in punjab` does produce a
`top_crops` plan with limit 0 — there is no positive-integer check and no
`InvalidParameter` rejection in `plan_query`. -/
theorem claim_C4_counterexample :
    planQuery emptyTables "top 0 crops in punjab".data =
      Plan.topCrops 0 "punjab".data "Punjab".data := by decide

/-- Claim C4 as amended: the `\d+` capture always parses (as a nonnegative
integer, so a parse-failure fallthrough never happens), N = 0 is accepted
rather than rejected with `InvalidParameter`, and the resulting limit-0 plan
executes to an empty table and the informational no-data answer. -/
theorem claim_C4_amended (t : Tables) :
    planQuery t "top 0 crops in punjab".data =
      Plan.topCrops 0 "punjab".data "Punjab".data ∧
    runTop t.crop 0 "punjab".data = [] ∧
    ask t "top 0 crops in punjab".data = Narr.noCropData "Punjab".data := by
  refine ⟨rfl, rfl, rfl⟩

/-- Claim C9, counterexample: two questions that differ only in a run of
whitespace between tokens (inside the state capture) produce different plans,
because the capture retains the interior whitespace verbatim. -/
theorem claim_C9_counterexample :
    planQuery emptyTables "top 5 crops in a  b".data ≠
      planQuery emptyTables "top 5 crops in a b".data := by decide

/-- Claim C9 as amended: template matching is case-insensitive — questions
equal up to letter case produce identical plans — and the quoted example pair
produces identical plans; but whitespace runs inside a captured parameter are
preserved in the plan, so whitespace invariance does not hold in general. -/
theorem claim_C9_amended :
    (∀ t q1 q2, lowerL q1 = lowerL q2 → planQuery t q1 = planQuery t q2) ∧
    (∀ t, planQuery t "Top 5 Crops in Punjab".data =
      planQuery t "top   5 crops in punjab".data) := by
  constructor
  · intro t q1 q2 h
    simp only [planQuery, h]
  · intro t
    rfl

/-- Witness for C9: the amended case-insensitivity applied to a concrete pair. -/
theorem claim_C9_witness :
    planQuery emptyTables "Top 5 Crops in Punjab".data =
      planQuery emptyTables "top 5 crops in punjab".data :=
  claim_C9_amended.1 emptyTables _ _ (by decide)

/-- Claim C5, counterexample: a trend question against a store in which
neither relation has any row yields the unknown-intent help text (the code
returns the `unknown` plan from the empty-candidates branch), not an
informational no-data narrative. -/
theorem claim_C5_counterexample :
    planQuery emptyTables "trend of wheat over last 5 years in punjab".data =
      Plan.unknown ∧
    ask emptyTables "trend of wheat over last 5 years in punjab".data = Narr.help := by
  exact ⟨by decide, by decide⟩

/-- Claim C5 as amended: for every trend question, when neither relation
contains a row the window cannot be resolved and the pipeline returns the
unknown plan, hence the fixed unknown-intent help text (recoverable, not a
crash, but not a dedicated no-data narrative). -/
theorem claim_C5_amended (q c d s : List Char)
    (htop : topMatch (stripL (lowerL q)) = none)
    (htr : trendMatch (stripL (lowerL q)) = some (c, d, s)) :
    planQuery emptyTables q = Plan.unknown ∧ ask emptyTables q = Narr.help := by
  have h1 : planQuery emptyTables q = Plan.unknown := by
    simp only [planQuery, htop, htr, emptyTables, List.map_nil, maxInt, List.nil_append]
  refine ⟨h1, ?_⟩
  rw [ask, h1]
  rfl

/-- Witness for C5. -/
theorem claim_C5_witness :
    topMatch (stripL (lowerL "trend of wheat over last 5 years in punjab".data)) = none ∧
    (planQuery emptyTables "trend of wheat over last 5 years in punjab".data = Plan.unknown ∧
      ask emptyTables "trend of wheat over last 5 years in punjab".data = Narr.help) :=
  ⟨by decide,
    claim_C5_amended "trend of wheat over last 5 years in punjab".data "wheat".data
      "5".data "punjab".data (by decide) (by decide)⟩

/-- Claim C1, counterexample: the question shape
`trend of rainfall in <state> for last N years` is not among the three
templates of `plan_query`; on a store with data, the concrete question
resolves to the unknown intent and the help text, not to a rain-trend
answer. -/
theorem claim_C1_counterexample :
    planQuery storeJoin "trend of rainfall in punjab for last 5 years".data =
      Plan.unknown ∧
    ask storeJoin "trend of rainfall in punjab for last 5 years".data = Narr.help := by
  exact ⟨by decide, by decide⟩

/-- Claim C7: the trend answer carries the correlation field of the merged
table, and that field is the N/A marker exactly when fewer than two merged
rows have both values present or one of the two variance numerators is zero
(the Pearson coefficient is undefined); the computation is a total function,
so it never raises. -/
theorem claim_C7 :
    (∀ t cl sl c s mn mx,
      execAnswer t (Plan.trend cl sl c s mn mx) =
        Narr.trendAns c s (mn, mx)
          (corrOf (leftJoin (prodSeries t.crop cl sl mn mx) (rainSeries t.rain sl mn mx)))
          (leftJoin (prodSeries t.crop cl sl mn mx) (rainSeries t.rain sl mn mx))) ∧
    (∀ merged, corrOf merged = none ↔
      ((pairsOf merged).length < 2 ∨ varXnum (pairsOf merged) = 0 ∨
        varYnum (pairsOf merged) = 0)) := by
  constructor
  · intro t cl sl c s mn mx
    rfl
  · intro merged
    cases merged with
    | nil => simp [corrOf, pairsOf]
    | cons r tail =>
      rw [corrOf]
      simp only [List.isEmpty_cons, Bool.false_eq_true, if_false]
      by_cases hv : varXnum (pairsOf (r :: tail)) = 0 ∨ varYnum (pairsOf (r :: tail)) = 0
      · simp only [if_pos hv]
        constructor
        · intro _
          exact Or.inr hv
        · intro _
          trivial
      · simp only [if_neg hv]
        constructor
        · intro h
          exact absurd h (by simp)
        · intro h
          rcases h with h | h | h
          · exact absurd (Or.inl (varXnum_zero_of_short h)) hv
          · exact absurd (Or.inl h) hv
          · exact absurd (Or.inr h) hv

/-- Claim C2: for every question the Recognizer turns into a `top_crops`
plan with N ≥ 1, the executed result table has at most N rows, its production
totals are non-increasing (NULL totals last, the DuckDB default order), every
row's total aggregates exactly the crop rows whose state equals the
normalized requested state, each listed crop really occurs in such a row, and
the synthesized answer is either the no-data message or the bullet list over
this very table. -/
theorem claim_C2 (t : Tables) (q : List Char) (n : Nat) (sl st : List Char)
    (hn : 1 ≤ n) (hp : planQuery t q = Plan.topCrops n sl st) :
    (runTop t.crop n sl).length ≤ n ∧
    List.Pairwise descRow (runTop t.crop n sl) ∧
    (∀ row ∈ runTop t.crop n sl,
      row.2 = sumOpt (((t.crop.filter (fun r => lowerL r.state == sl)).filter
        (fun r => r.crop == row.1)).map (fun r => r.production_mt)) ∧
      ∃ r ∈ t.crop, lowerL r.state = sl ∧ r.crop = row.1) ∧
    (execAnswer t (Plan.topCrops n sl st) = Narr.noCropData st ∨
      execAnswer t (Plan.topCrops n sl st) =
        Narr.topList n st (runTop t.crop n sl)) := by
  have hagg : ∀ el ∈ runTop t.crop n sl,
      el ∈ (((t.crop.filter (fun r => lowerL r.state == sl)).map
          (fun r => r.crop)).dedup).map
        (fun c => (c, sumOpt (((t.crop.filter (fun r => lowerL r.state == sl)).filter
          (fun r => r.crop == c)).map (fun r => r.production_mt)))) := by
    intro el hel
    rw [runTop] at hel
    exact ((List.perm_insertionSort descRow _).mem_iff).mp
      (List.Sublist.mem hel (List.take_sublist _ _))
  refine ⟨?_, ?_, ?_, ?_⟩
  · rw [runTop]
    exact List.length_take_le _ _
  · rw [runTop]
    exact List.Pairwise.sublist (List.take_sublist _ _)
      (List.sorted_insertionSort descRow _)
  · intro row hrow
    obtain ⟨c, hc, heq⟩ := List.mem_map.mp (hagg row hrow)
    rcases heq with rfl
    refine ⟨rfl, ?_⟩
    obtain ⟨r, hr, hcrop⟩ := List.mem_map.mp (List.mem_dedup.mp hc)
    obtain ⟨hrt, hpred⟩ := List.mem_filter.mp hr
    exact ⟨r, hrt, by simpa using hpred, hcrop⟩
  · simp only [execAnswer]
    by_cases h : (runTop t.crop n sl).isEmpty = true
    · rw [if_pos h]
      exact Or.inl rfl
    · rw [if_neg h]
      exact Or.inr rfl

/-- Witness for C2, on a store with two Punjab crops and one Goa crop. -/
theorem claim_C2_witness :
    (1 ≤ 2 ∧
      planQuery storeTop "top 2 crops in punjab".data =
        Plan.topCrops 2 "punjab".data "Punjab".data) ∧
    ((runTop storeTop.crop 2 "punjab".data).length ≤ 2 ∧
      List.Pairwise descRow (runTop storeTop.crop 2 "punjab".data) ∧
      (∀ row ∈ runTop storeTop.crop 2 "punjab".data,
        row.2 = sumOpt (((storeTop.crop.filter
            (fun r => lowerL r.state == "punjab".data)).filter
          (fun r => r.crop == row.1)).map (fun r => r.production_mt)) ∧
        ∃ r ∈ storeTop.crop, lowerL r.state = "punjab".data ∧ r.crop = row.1) ∧
      (execAnswer storeTop (Plan.topCrops 2 "punjab".data "Punjab".data) =
          Narr.noCropData "Punjab".data ∨
        execAnswer storeTop (Plan.topCrops 2 "punjab".data "Punjab".data) =
          Narr.topList 2 "Punjab".data (runTop storeTop.crop 2 "punjab".data))) :=
  ⟨⟨by decide, by decide⟩,
    claim_C2 storeTop "top 2 crops in punjab".data 2 "punjab".data "Punjab".data
      (by decide) (by decide)⟩

/-! ### Series facts for the trend window -/

theorem prodSeries_year_bounds {crop : List CropRow} {cl sl : List Char} {mn mx : Int} :
    ∀ row ∈ prodSeries crop cl sl mn mx, mn ≤ row.1 ∧ row.1 ≤ mx := by
  intro row hrow
  rw [prodSeries] at hrow
  have hmem := ((List.perm_insertionSort yearRow _).mem_iff).mp hrow
  obtain ⟨y, hy, heq⟩ := List.mem_map.mp hmem
  obtain ⟨r, hr, hyear⟩ := List.mem_map.mp (List.mem_dedup.mp hy)
  obtain ⟨_, hpred⟩ := List.mem_filter.mp hr
  rw [Bool.and_eq_true, Bool.and_eq_true, Bool.and_eq_true] at hpred
  obtain ⟨⟨⟨_, _⟩, h3⟩, h4⟩ := hpred
  rcases heq with rfl
  rw [← hyear]
  exact ⟨of_decide_eq_true h3, of_decide_eq_true h4⟩

theorem rainSeries_year_bounds {rain : List RainRow} {sl : List Char} {mn mx : Int} :
    ∀ row ∈ rainSeries rain sl mn mx, mn ≤ row.1 ∧ row.1 ≤ mx := by
  intro row hrow
  rw [rainSeries] at hrow
  have hmem := ((List.perm_insertionSort yearRow _).mem_iff).mp hrow
  obtain ⟨y, hy, heq⟩ := List.mem_map.mp hmem
  obtain ⟨r, hr, hyear⟩ := List.mem_map.mp (List.mem_dedup.mp hy)
  obtain ⟨_, hpred⟩ := List.mem_filter.mp hr
  rw [Bool.and_eq_true, Bool.and_eq_true] at hpred
  obtain ⟨⟨_, h3⟩, h4⟩ := hpred
  rcases heq with rfl
  rw [← hyear]
  exact ⟨of_decide_eq_true h3, of_decide_eq_true h4⟩

theorem prodSeries_year_complete {crop : List CropRow} {cl sl : List Char} {mn mx : Int} :
    ∀ r ∈ crop, likeContains cl (lowerL r.crop) = true → lowerL r.state = sl →
      mn ≤ r.year → r.year ≤ mx →
      r.year ∈ (prodSeries crop cl sl mn mx).map (fun p => p.1) := by
  intro r hr hlike hstate h1 h2
  rw [prodSeries]
  have hperm := (List.perm_insertionSort yearRow
    ((((crop.filter (fun r => likeContains cl (lowerL r.crop) && lowerL r.state == sl &&
        decide (mn ≤ r.year) && decide (r.year ≤ mx))).map (fun r => r.year)).dedup).map
      (fun y => (y, sumOpt (((crop.filter (fun r => likeContains cl (lowerL r.crop) &&
        lowerL r.state == sl && decide (mn ≤ r.year) && decide (r.year ≤ mx))).filter
        (fun r2 => r2.year == y)).map (fun r => r.production_mt)))))).map (fun p => p.1)
  rw [hperm.mem_iff]
  rw [List.map_map]
  have : ((fun p => p.1) ∘ fun y => ((y : Int), sumOpt (((crop.filter
      (fun r => likeContains cl (lowerL r.crop) && lowerL r.state == sl &&
        decide (mn ≤ r.year) && decide (r.year ≤ mx))).filter
      (fun r2 => r2.year == y)).map (fun r => r.production_mt)))) = id := by
    funext y
    rfl
  rw [this, List.map_id, List.mem_dedup]
  refine List.mem_map.mpr ⟨r, ?_, rfl⟩
  rw [List.mem_filter]
  refine ⟨hr, ?_⟩
  rw [Bool.and_eq_true, Bool.and_eq_true, Bool.and_eq_true]
  exact ⟨⟨⟨hlike, by simpa using hstate⟩, decide_eq_true h1⟩, decide_eq_true h2⟩

theorem rainSeries_year_complete {rain : List RainRow} {sl : List Char} {mn mx : Int} :
    ∀ r ∈ rain, lowerL r.state = sl → mn ≤ r.year → r.year ≤ mx →
      r.year ∈ (rainSeries rain sl mn mx).map (fun p => p.1) := by
  intro r hr hstate h1 h2
  rw [rainSeries]
  have hperm := (List.perm_insertionSort yearRow
    ((((rain.filter (fun r => lowerL r.state == sl &&
        decide (mn ≤ r.year) && decide (r.year ≤ mx))).map (fun r => r.year)).dedup).map
      (fun y => (y, avgOpt (((rain.filter (fun r => lowerL r.state == sl &&
        decide (mn ≤ r.year) && decide (r.year ≤ mx))).filter
        (fun r2 => r2.year == y)).map (fun r => r.annual)))))).map (fun p => p.1)
  rw [hperm.mem_iff]
  rw [List.map_map]
  have : ((fun p => p.1) ∘ fun y => ((y : Int), avgOpt (((rain.filter
      (fun r => lowerL r.state == sl && decide (mn ≤ r.year) &&
        decide (r.year ≤ mx))).filter
      (fun r2 => r2.year == y)).map (fun r => r.annual)))) = id := by
    funext y
    rfl
  rw [this, List.map_id, List.mem_dedup]
  refine List.mem_map.mpr ⟨r, ?_, rfl⟩
  rw [List.mem_filter]
  refine ⟨hr, ?_⟩
  rw [Bool.and_eq_true, Bool.and_eq_true]
  exact ⟨⟨by simpa using hstate, decide_eq_true h1⟩, decide_eq_true h2⟩

theorem maxInt_cands {A B : List Int} {M : Int} (hM : maxInt (A ++ B) = some M) :
    maxInt
      ((match maxInt A with | some m => [m] | none => []) ++
       (match maxInt B with | some m => [m] | none => [])) = some M := by
  rw [maxInt_append] at hM
  cases hA : maxInt A with
  | none =>
    cases hB : maxInt B with
    | none => rw [hA, hB] at hM; simp at hM
    | some b =>
      rw [hA, hB] at hM
      simpa [maxInt] using hM
  | some a =>
    cases hB : maxInt B with
    | none =>
      rw [hA, hB] at hM
      simpa [maxInt] using hM
    | some b =>
      rw [hA, hB] at hM
      simpa [maxInt] using hM

/-- Claim C6: for a question the Recognizer parses as a trend with window N,
when at least one relation has rows, the plan resolves `max_year` to the
maximum year across both relations together and `min_year = max_year - N + 1`,
and both executed series contain exactly the matching years inside
`[min_year, max_year]` (bounds in both directions). -/
theorem claim_C6 (t : Tables) (q : List Char) (c d s : List Char) (M : Int)
    (htop : topMatch (stripL (lowerL q)) = none)
    (htr : trendMatch (stripL (lowerL q)) = some (c, d, s))
    (hM : maxInt (t.crop.map (fun r => r.year) ++ t.rain.map (fun r => r.year)) =
      some M) :
    planQuery t q =
      Plan.trend (safeLike (lowerL (stripL c))) (safeLike (lowerL (stripL s)))
        (titleL (stripL c)) (titleL (stripL s)) (M - (natOfDigits d : Int) + 1) M ∧
    (∀ row ∈ prodSeries t.crop (safeLike (lowerL (stripL c)))
        (safeLike (lowerL (stripL s))) (M - (natOfDigits d : Int) + 1) M,
      M - (natOfDigits d : Int) + 1 ≤ row.1 ∧ row.1 ≤ M) ∧
    (∀ row ∈ rainSeries t.rain (safeLike (lowerL (stripL s)))
        (M - (natOfDigits d : Int) + 1) M,
      M - (natOfDigits d : Int) + 1 ≤ row.1 ∧ row.1 ≤ M) ∧
    (∀ r ∈ t.crop,
      likeContains (safeLike (lowerL (stripL c))) (lowerL r.crop) = true →
      lowerL r.state = safeLike (lowerL (stripL s)) →
      M - (natOfDigits d : Int) + 1 ≤ r.year → r.year ≤ M →
      r.year ∈ (prodSeries t.crop (safeLike (lowerL (stripL c)))
        (safeLike (lowerL (stripL s))) (M - (natOfDigits d : Int) + 1) M).map
          (fun p => p.1)) ∧
    (∀ r ∈ t.rain, lowerL r.state = safeLike (lowerL (stripL s)) →
      M - (natOfDigits d : Int) + 1 ≤ r.year → r.year ≤ M →
      r.year ∈ (rainSeries t.rain (safeLike (lowerL (stripL s)))
        (M - (natOfDigits d : Int) + 1) M).map (fun p => p.1)) := by
  refine ⟨?_, prodSeries_year_bounds, rainSeries_year_bounds,
    prodSeries_year_complete, rainSeries_year_complete⟩
  simp only [planQuery, htop, htr, maxInt_cands hM]

/-- Witness for C6: crop years reach 2020 but rain years reach 2022, so the
resolved window for `last 3 years` is 2020-2022. -/
theorem claim_C6_witness :
    (topMatch (stripL (lowerL "trend of wheat over last 3 years in punjab".data)) =
        none ∧
      trendMatch (stripL (lowerL "trend of wheat over last 3 years in punjab".data)) =
        some ("wheat".data, "3".data, "punjab".data) ∧
      maxInt (storeYears.crop.map (fun r => r.year) ++
        storeYears.rain.map (fun r => r.year)) = some 2022) ∧
    planQuery storeYears "trend of wheat over last 3 years in punjab".data =
      Plan.trend "wheat".data "punjab".data "Wheat".data "Punjab".data 2020 2022 := by
  refine ⟨⟨by decide, by decide, by decide⟩, ?_⟩
  have h := (claim_C6 storeYears "trend of wheat over last 3 years in punjab".data
    "wheat".data "3".data "punjab".data 2022 (by decide) (by decide) (by decide)).1
  have heq : (2022 - (natOfDigits "3".data : Int) + 1 : Int) = 2020 := by decide
  rw [heq] at h
  exact h

/-! ### Left-join facts -/

theorem rainSeries_keys_nodup (rain : List RainRow) (sl : List Char) (mn mx : Int) :
    ((rainSeries rain sl mn mx).map (fun p => p.1)).Nodup := by
  rw [rainSeries]
  have hperm := (List.perm_insertionSort yearRow
    ((((rain.filter (fun r => lowerL r.state == sl &&
        decide (mn ≤ r.year) && decide (r.year ≤ mx))).map (fun r => r.year)).dedup).map
      (fun y => (y, avgOpt (((rain.filter (fun r => lowerL r.state == sl &&
        decide (mn ≤ r.year) && decide (r.year ≤ mx))).filter
        (fun r2 => r2.year == y)).map (fun r => r.annual)))))).map (fun p => p.1)
  rw [hperm.nodup_iff, List.map_map]
  have : ((fun p => p.1) ∘ fun y => ((y : Int), avgOpt (((rain.filter
      (fun r => lowerL r.state == sl && decide (mn ≤ r.year) &&
        decide (r.year ≤ mx))).filter
      (fun r2 => r2.year == y)).map (fun r => r.annual)))) = id := by
    funext y
    rfl
  rw [this, List.map_id]
  exact List.nodup_dedup _

theorem filter_key_eq_find {dfr : List (Int × Option ℚ)}
    (h : (dfr.map (fun p => p.1)).Nodup) (y : Int) :
    dfr.filter (fun yr => yr.1 == y) =
      (match dfr.find? (fun yr => yr.1 == y) with
       | some x => [x]
       | none => []) := by
  induction dfr with
  | nil => rfl
  | cons p t ih =>
    rw [List.map_cons, List.nodup_cons] at h
    cases hp : (p.1 == y : Bool) with
    | true =>
      have ht : t.filter (fun yr => yr.1 == y) = [] := by
        rw [List.filter_eq_nil]
        intro a ha hqa
        apply h.1
        rw [beq_iff_eq] at hp hqa
        rw [hp]
        exact List.mem_map.mpr ⟨a, ha, hqa⟩
      simp [List.filter_cons, List.find?_cons, hp, ht]
    | false =>
      simp only [List.filter_cons, List.find?_cons, hp, if_false]
      simpa using ih h.2

theorem leftJoin_eq_map (dfp : List (Int × Option ℚ)) {dfr : List (Int × Option ℚ)}
    (h : (dfr.map (fun p => p.1)).Nodup) :
    leftJoin dfp dfr = dfp.map (fun p => (p.1, p.2, rainLookup dfr p.1)) := by
  induction dfp with
  | nil => rfl
  | cons p t ih =>
    rw [leftJoin, filter_key_eq_find h p.1, List.map_cons, ih, rainLookup]
    cases dfr.find? (fun yr => yr.1 == p.1) with
    | none => rfl
    | some x => rfl

/-- Claim C3, counterexample: on a store whose rainfall series contains year
2021 but whose production series does not, the merged trend table drops 2021
entirely — a year present only in the rainfall series does not appear with an
absent production value, contradicting the claimed full outer behaviour. -/
theorem claim_C3_counterexample :
    planQuery storeJoin "trend of wheat over last 5 years in punjab".data =
      Plan.trend "wheat".data "punjab".data "Wheat".data "Punjab".data 2017 2021 ∧
    (rainSeries storeJoin.rain "punjab".data 2017 2021).map (fun r => r.1) = [2021] ∧
    trendYears (ask storeJoin "trend of wheat over last 5 years in punjab".data) =
      [2020] := by
  exact ⟨by decide, by decide, by decide⟩

/-- Claim C3 as amended: the merged trend table is the pandas left join of
the two series on year — its year column is exactly the production-series
year column in order, each production row appears with the rainfall value
looked up by year (absent when the year is missing from the rainfall series),
and a year present only in the rainfall series is dropped (full outer
behaviour does not hold). -/
theorem claim_C3_amended (t : Tables) (cl sl cT sT : List Char) (mn mx : Int) :
    execAnswer t (Plan.trend cl sl cT sT mn mx) =
      Narr.trendAns cT sT (mn, mx)
        (corrOf (leftJoin (prodSeries t.crop cl sl mn mx) (rainSeries t.rain sl mn mx)))
        (leftJoin (prodSeries t.crop cl sl mn mx) (rainSeries t.rain sl mn mx)) ∧
    (leftJoin (prodSeries t.crop cl sl mn mx) (rainSeries t.rain sl mn mx)).map
        (fun r => r.1) =
      (prodSeries t.crop cl sl mn mx).map (fun p => p.1) ∧
    (∀ p ∈ prodSeries t.crop cl sl mn mx,
      (p.1, p.2, rainLookup (rainSeries t.rain sl mn mx) p.1) ∈
        leftJoin (prodSeries t.crop cl sl mn mx) (rainSeries t.rain sl mn mx)) ∧
    (∀ r ∈ leftJoin (prodSeries t.crop cl sl mn mx) (rainSeries t.rain sl mn mx),
      r.1 ∈ (prodSeries t.crop cl sl mn mx).map (fun p => p.1)) := by
  have hjoin := leftJoin_eq_map (prodSeries t.crop cl sl mn mx)
    (rainSeries_keys_nodup t.rain sl mn mx)
  refine ⟨rfl, ?_, ?_, ?_⟩
  · rw [hjoin, List.map_map]
    rfl
  · intro p hp
    rw [hjoin]
    exact List.mem_map.mpr ⟨p, hp, rfl⟩
  · intro r hr
    rw [hjoin] at hr
    obtain ⟨p, hp, heq⟩ := List.mem_map.mp hr
    rcases heq with rfl
    exact List.mem_map.mpr ⟨p, hp, rfl⟩

/-! ### Class preservation along the normalization chain -/

theorem lowChar_cls {c : Char} (h : isClsChar c = true) : isClsChar (lowChar c) = true := by
  rw [lowChar]
  by_cases hu : isUpperC c = true
  · rw [if_pos hu]
    rw [isUpperC, Bool.and_eq_true, decide_eq_true_eq, decide_eq_true_eq] at hu
    obtain ⟨h1, h2⟩ := hu
    generalize hgen : c.toNat = n at h1 h2 ⊢
    interval_cases n <;> decide
  · rw [if_neg hu]
    exact h

theorem ne_quote_of_cls {c : Char} (h : isClsChar c = true) : c ≠ quoteChar := by
  intro heq
  subst heq
  exact absurd h (by decide)

theorem quote_not_mem_of_cls {p : List Char} (h : p.all isClsChar = true) :
    quoteChar ∉ p := by
  rw [List.all_eq_true] at h
  intro hmem
  exact ne_quote_of_cls (h _ hmem) rfl

theorem safeLike_eq_self {p : List Char} (h : quoteChar ∉ p) : safeLike p = p := by
  induction p with
  | nil => rfl
  | cons c t ih =>
    have hc : ¬(c = quoteChar) := fun heq => h (by rw [heq]; exact List.mem_cons_self _ _)
    rw [safeLike, if_neg hc, ih (fun hm => h (List.mem_cons_of_mem _ hm))]
    rfl

theorem all_stripL {p : Char → Bool} {l : List Char} (h : l.all p = true) :
    (stripL l).all p = true := by
  rw [List.all_eq_true] at h ⊢
  intro c hc
  apply h
  rw [stripL, List.mem_reverse] at hc
  have hc2 := List.Sublist.mem hc (List.dropWhile_sublist _)
  rw [List.mem_reverse] at hc2
  exact List.Sublist.mem hc2 (List.dropWhile_sublist _)

theorem all_lowerL_cls {l : List Char} (h : l.all isClsChar = true) :
    (lowerL l).all isClsChar = true := by
  rw [List.all_eq_true] at h ⊢
  intro c hc
  rw [lowerL] at hc
  obtain ⟨a, ha, rfl⟩ := List.mem_map.mp hc
  exact lowChar_cls (h a ha)

/-! ### Matcher inversion: a successful template match exposes its captures -/

theorem topMatch_inv {ql a b : List Char} (h : topMatch ql = some (a, b)) :
    searchToks patTop ql = some [a, b] := by
  rw [topMatch] at h
  cases hx : searchToks patTop ql with
  | none => rw [hx] at h; simp at h
  | some caps =>
    rw [hx] at h
    rcases caps with _ | ⟨x, _ | ⟨y, _ | ⟨z, rest⟩⟩⟩
    · simp at h
    · simp at h
    · simp only [Option.some_inj, Prod.mk.injEq] at h
      obtain ⟨rfl, rfl⟩ := h
      rfl
    · simp at h

theorem trendMatch_inv {ql a b c : List Char} (h : trendMatch ql = some (a, b, c)) :
    searchToks patTrend ql = some [a, b, c] := by
  rw [trendMatch] at h
  cases hx : searchToks patTrend ql with
  | none => rw [hx] at h; simp at h
  | some caps =>
    rw [hx] at h
    rcases caps with _ | ⟨x, _ | ⟨y, _ | ⟨z, _ | ⟨u, rest⟩⟩⟩⟩
    · simp at h
    · simp at h
    · simp at h
    · simp only [Option.some_inj, Prod.mk.injEq] at h
      obtain ⟨rfl, rfl, rfl⟩ := h
      rfl
    · simp at h

theorem compareMatch_inv {ql a b : List Char} (h : compareMatch ql = some (a, b)) :
    searchToks patCompare ql = some [a, b] := by
  rw [compareMatch] at h
  cases hx : searchToks patCompare ql with
  | none => rw [hx] at h; simp at h
  | some caps =>
    rw [hx] at h
    rcases caps with _ | ⟨x, _ | ⟨y, _ | ⟨z, rest⟩⟩⟩
    · simp at h
    · simp at h
    · simp only [Option.some_inj, Prod.mk.injEq] at h
      obtain ⟨rfl, rfl⟩ := h
      rfl
    · simp at h

/-- Claim C10: every capture of any template consists only of characters of
the class `[\w\s&.-]` (which excludes the single quote), and consequently
every textual parameter embedded into a built plan is quote-free and is a
fixed point of `safe_like` — the quote-doubling branch never fires and no
single quote is ever embedded into a generated query. -/
theorem claim_C10 :
    (∀ toks s cps, searchToks toks s = some cps → ∀ cp ∈ cps,
      cp.all isClsChar = true) ∧
    (∀ t q p, p ∈ planParams (planQuery t q) → quoteChar ∉ p ∧ safeLike p = p) := by
  constructor
  · intro toks s cps h
    exact searchToks_caps_cls h
  · intro t q p hp
    have key : ∀ cap : List Char, cap.all isClsChar = true →
        p = safeLike (lowerL (stripL cap)) → quoteChar ∉ p ∧ safeLike p = p := by
      intro cap hcap hpe
      have h2 : (lowerL (stripL cap)).all isClsChar = true :=
        all_lowerL_cls (all_stripL hcap)
      have h3 : quoteChar ∉ lowerL (stripL cap) := quote_not_mem_of_cls h2
      have h4 : safeLike (lowerL (stripL cap)) = lowerL (stripL cap) :=
        safeLike_eq_self h3
      rw [hpe, h4]
      exact ⟨h3, safeLike_eq_self h3⟩
    simp only [planQuery] at hp
    cases htop : topMatch (stripL (lowerL q)) with
    | some pr =>
      obtain ⟨nStr, state⟩ := pr
      rw [htop] at hp
      simp only [planParams, List.mem_singleton] at hp
      have hcaps := searchToks_caps_cls (topMatch_inv htop)
      exact key state (hcaps state (by simp)) hp
    | none =>
      rw [htop] at hp
      cases htr : trendMatch (stripL (lowerL q)) with
      | some tri =>
        obtain ⟨cN, d, st⟩ := tri
        rw [htr] at hp
        have hcaps := searchToks_caps_cls (trendMatch_inv htr)
        cases hm : maxInt
            ((match maxInt (t.crop.map (fun r => r.year)) with
              | some m => [m]
              | none => []) ++
             (match maxInt (t.rain.map (fun r => r.year)) with
              | some m => [m]
              | none => [])) with
        | none =>
          rw [hm] at hp
          simp [planParams] at hp
        | some maxY =>
          rw [hm] at hp
          simp only [planParams, List.mem_cons, List.mem_singleton,
            List.not_mem_nil, or_false] at hp
          rcases hp with hp | hp
          · exact key cN (hcaps cN (by simp)) hp
          · exact key st (hcaps st (by simp)) hp
      | none =>
        rw [htr] at hp
        cases hcm : compareMatch (stripL (lowerL q)) with
        | some pr =>
          obtain ⟨s1, s2⟩ := pr
          rw [hcm] at hp
          have hcaps := searchToks_caps_cls (compareMatch_inv hcm)
          simp only [planParams, List.mem_cons, List.mem_singleton,
            List.not_mem_nil, or_false] at hp
          rcases hp with hp | hp
          · exact key s1 (hcaps s1 (by simp)) hp
          · exact key s2 (hcaps s2 (by simp)) hp
        | none =>
          rw [hcm] at hp
          simp [planParams] at hp

/-- Witness for C10: the single parameter of a concrete `top_crops` plan. -/
theorem claim_C10_witness :
    quoteChar ∉ "punjab".data ∧ safeLike "punjab".data = "punjab".data :=
  claim_C10.2 emptyTables "top 3 crops in punjab".data "punjab".data (by decide)

/-! ### Stepping lemmas for the compare-template greedy split -/

theorem searchToks_cons (toks : List Tok) (c : Char) (rest : List Char) :
    searchToks toks (c :: rest) =
      (matchToks toks (c :: rest)).orElse (fun _ => searchToks toks rest) := rfl

theorem takeWhile_eq_self_of_all {p : Char → Bool} {l : List Char}
    (h : l.all p = true) : l.takeWhile p = l := by
  induction l with
  | nil => rfl
  | cons c t ih =>
    rw [List.all_cons, Bool.and_eq_true] at h
    rw [List.takeWhile_cons_of_pos h.1, ih h.2]

theorem matchToks_lit_step (w r : List Char) (ts : List Tok) :
    matchToks (Tok.lit w :: ts) (w ++ r) = matchToks ts r := by
  rw [matchToks_lit, isPrefixOf_append_self]
  simp only [if_true]
  rw [List.drop_left]

theorem matchToks_ws_step {c : Char} (r : List Char) (ts : List Tok)
    (hc : isWsp c = false) :
    matchToks (Tok.ws :: ts) (' ' :: c :: r) = matchToks ts (c :: r) := by
  rw [matchToks_ws]
  have hlen : ((' ' :: c :: r).takeWhile isWsp).length = 1 := by
    rw [List.takeWhile_cons_of_pos (by decide), List.takeWhile_cons_of_neg (by simp [hc])]
    rfl
  rw [hlen, tryK]
  cases hnext : matchToks ts (c :: r) with
  | some v => simp [Option.orElse, List.drop_succ_cons, List.drop_zero, hnext]
  | none => simp [Option.orElse, List.drop_succ_cons, List.drop_zero, hnext, tryK]

theorem matchToks_ws_step2 {b : List Char} (ts : List Tok) (hb : b ≠ [])
    (hc : ∀ c, b.head? = some c → isWsp c = false) :
    matchToks (Tok.ws :: ts) (' ' :: b) = matchToks ts b := by
  cases b with
  | nil => exact absurd rfl hb
  | cons c r => exact matchToks_ws_step r ts (hc c rfl)

theorem matchToks_cls_final {b : List Char} (hb : b ≠ [])
    (hcls : b.all isClsChar = true) : matchToks [Tok.cls] b = some [b] := by
  rw [matchToks_cls, takeWhile_eq_self_of_all hcls]
  cases b with
  | nil => exact absurd rfl hb
  | cons c r =>
    rw [List.length_cons, tryCap]
    have hdrop : (c :: r).drop (r.length + 1) = [] := by
      have : (c :: r).length = r.length + 1 := rfl
      rw [← this, List.drop_length]
    rw [hdrop, matchToks_nil]
    have htake : (c :: r).take (r.length + 1) = c :: r := by
      have : (c :: r).length = r.length + 1 := rfl
      rw [← this, List.take_length]
    simp [Option.orElse, htake]

theorem tame_mem {text : List Char}
    (htame : text.all (fun c => !(isWsp c) || c == ' ') = true) :
    ∀ c ∈ text, isWsp c = true → c = ' ' := by
  rw [List.all_eq_true] at htame
  intro c hc hw
  have := htame c hc
  rw [hw] at this
  simpa using this

theorem singleSpaced_drop {l : List Char} (h : singleSpaced l = true) (i : Nat) :
    singleSpaced (l.drop i) = true := by
  induction l generalizing i with
  | nil => simpa using h
  | cons a t ih =>
    cases i with
    | zero => simpa using h
    | succ i2 =>
      rw [List.drop_succ_cons]
      apply ih _ i2
      cases t with
      | nil => rfl
      | cons b u =>
        rw [singleSpaced, Bool.and_eq_true] at h
        exact h.2

theorem takeWhile_wsp_le_one {u : List Char} (hss : singleSpaced u = true)
    (htame : ∀ c ∈ u, isWsp c = true → c = ' ') :
    (u.takeWhile isWsp).length ≤ 1 := by
  cases u with
  | nil => simp
  | cons c t =>
    cases hc : isWsp c with
    | false => rw [List.takeWhile_cons_of_neg (by simp [hc])]; simp
    | true =>
      rw [List.takeWhile_cons_of_pos hc]
      cases t with
      | nil => simp
      | cons d v =>
        cases hd : isWsp d with
        | false =>
          rw [List.takeWhile_cons_of_neg (by simp [hd])]
          simp
        | true =>
          exfalso
          have hceq : c = ' ' := htame c (by simp) hc
          have hdeq : d = ' ' := htame d (by simp) hd
          rw [singleSpaced, Bool.and_eq_true] at hss
          have := hss.1
          rw [hc, hd] at this
          simp at this

/-- Forward direction of the separator analysis: a successful match of the
continuation tokens `\s+and\s+([\w\s&.-]+)$` on a tame single-spaced suffix
forces that suffix to begin with the five characters of `" and "`. -/
theorem sep_match_isPrefix {u : List Char} {caps : List (List Char)}
    (htame : ∀ c ∈ u, isWsp c = true → c = ' ')
    (hss : singleSpaced u = true)
    (h : matchToks [Tok.ws, Tok.lit "and".data, Tok.ws, Tok.cls] u = some caps) :
    (" and ".data).isPrefixOf u = true := by
  rw [matchToks_ws] at h
  obtain ⟨k, hk1, hkm, hnext⟩ := tryK_some h
  have hk : k = 1 := by
    have := le_trans hkm (takeWhile_wsp_le_one hss htame)
    omega
  subst hk
  cases u with
  | nil => simp at hkm
  | cons c u2 =>
    have hcw : isWsp c = true := by
      by_contra hcw
      rw [List.takeWhile_cons_of_neg (by simpa using hcw)] at hkm
      simp at hkm
    have hceq : c = ' ' := htame c (by simp) hcw
    subst hceq
    have hd1 : (' ' :: u2).drop 1 = u2 := rfl
    rw [hd1] at hnext
    rw [matchToks_lit] at hnext
    cases hp : ("and".data).isPrefixOf u2 with
    | false => rw [hp] at hnext; simp at hnext
    | true =>
      rw [hp] at hnext
      simp only [if_true] at hnext
      have hlen3 : ("and".data).length = 3 := rfl
      rw [hlen3] at hnext
      have hu2 : u2 = 'a' :: 'n' :: 'd' :: u2.drop 3 := eq_append_drop_of_isPrefixOf hp
      rw [matchToks_ws] at hnext
      obtain ⟨k2, hk21, hk2m, hnext2⟩ := tryK_some hnext
      have hwsp : ∃ d v, u2.drop 3 = d :: v ∧ isWsp d = true := by
        cases hv : u2.drop 3 with
        | nil =>
          rw [hv] at hk2m
          simp at hk2m
          omega
        | cons d v =>
          refine ⟨d, v, rfl, ?_⟩
          by_contra hdw
          rw [hv, List.takeWhile_cons_of_neg (by simpa using hdw)] at hk2m
          simp at hk2m
          omega
      obtain ⟨d, v, hv, hdw⟩ := hwsp
      have hdmem : d ∈ ' ' :: u2 := by
        have : d ∈ u2.drop 3 := by rw [hv]; simp
        exact List.mem_cons_of_mem _ (List.Sublist.mem this (List.drop_sublist _ _))
      have hdeq : d = ' ' := htame d hdmem hdw
      subst hdeq
      have hu2e : u2 = 'a' :: 'n' :: 'd' :: ' ' :: v := by rw [hu2, hv]
      rw [hu2e]
      show ((' ' :: 'a' :: 'n' :: 'd' :: [' ']).isPrefixOf
        (' ' :: 'a' :: 'n' :: 'd' :: ' ' :: v)) = true
      simp [isPrefixOf_cons_cons, isPrefixOf_nil_left]

theorem mem_of_headQ {l : List Char} {c : Char} (h : l.head? = some c) : c ∈ l := by
  cases l with
  | nil => simp at h
  | cons d t =>
    have : d = c := by simpa using h
    rw [← this]
    exact List.mem_cons_self _ _

/-- Backward direction of the separator analysis: at the split position the
continuation tokens match, capturing exactly the segment after the
separator. -/
theorem sep_match_at_split {b : List Char} (hb : b ≠ [])
    (hcls : b.all isClsChar = true)
    (hhead : ∀ c, b.head? = some c → isWsp c = false) :
    matchToks [Tok.ws, Tok.lit "and".data, Tok.ws, Tok.cls]
      (' ' :: 'a' :: 'n' :: 'd' :: ' ' :: b) = some [b] := by
  rw [matchToks_ws_step (c := 'a') ('n' :: 'd' :: ' ' :: b)
    [Tok.lit "and".data, Tok.ws, Tok.cls] (by decide)]
  show matchToks (Tok.lit "and".data :: [Tok.ws, Tok.cls])
    ("and".data ++ (' ' :: b)) = some [b]
  rw [matchToks_lit_step]
  rw [matchToks_ws_step2 [Tok.cls] hb hhead]
  exact matchToks_cls_final hb hcls

/-- Claim C8: for a compare question whose `<text>` part is in the capture
class, single-spaced, and does not start or end with a space, the Recognizer
resolves the ambiguity of `and` by greedy terminal matching — the second
state is the segment after the rightmost `" and "` and the first state is
everything before it. -/
theorem claim_C8 (text : List Char) (k : Nat)
    (hcls : text.all isClsChar = true)
    (htame : text.all (fun c => !(isWsp c) || c == ' ') = true)
    (hss : singleSpaced text = true)
    (hhead : ∀ c, text.head? = some c → c ≠ ' ')
    (hlast : ∀ c, text.getLast? = some c → c ≠ ' ')
    (hocc : lastOcc (" and ".data) text = some k) :
    compareMatch ("compare rainfall between ".data ++ text) =
      some (text.take k, text.drop (k + 5)) := by
  have htm := tame_mem htame
  have hpre := lastOcc_isPrefixOf hocc
  have hsplit : text.drop k = ' ' :: 'a' :: 'n' :: 'd' :: ' ' :: text.drop (k + 5) := by
    have h1 := eq_append_drop_of_isPrefixOf hpre
    have h2 : (text.drop k).drop ((" and ".data).length) = text.drop (k + 5) := by
      show (text.drop k).drop 5 = text.drop (k + 5)
      rw [List.drop_drop]
    rw [h2] at h1
    exact h1
  have hk5le : k + 5 ≤ text.length := by
    have hl := length_le_of_isPrefixOf hpre
    rw [List.length_drop] at hl
    have h5 : (" and ".data).length = 5 := rfl
    rw [h5] at hl
    omega
  have hk1 : 1 ≤ k := by
    rcases Nat.eq_zero_or_pos k with rfl | h
    · exfalso
      rw [List.drop_zero] at hsplit
      exact hhead ' ' (by rw [hsplit]; rfl) rfl
    · exact h
  have hbne : text.drop (k + 5) ≠ [] := by
    intro hbe
    have h1 : text = text.take k ++ text.drop k := (List.take_append_drop k text).symm
    rw [hsplit, hbe] at h1
    have h2 : text.getLast? = some ' ' := by
      rw [h1, List.getLast?_append_of_ne_nil _ (by simp)]
      rfl
    exact hlast ' ' h2 rfl
  have hbhead : ∀ c, (text.drop (k + 5)).head? = some c → isWsp c = false := by
    intro c hc
    have hd4 : text.drop (k + 4) = ' ' :: text.drop (k + 5) := by
      have hdd : (text.drop k).drop 4 = text.drop (k + 4) := List.drop_drop 4 k text
      rw [hsplit] at hdd
      have h4 : (' ' :: 'a' :: 'n' :: 'd' :: ' ' :: text.drop (k + 5)).drop 4 =
          ' ' :: text.drop (k + 5) := rfl
      rw [h4] at hdd
      exact hdd.symm
    have hss2 := singleSpaced_drop hss (k + 4)
    rw [hd4] at hss2
    cases hb2 : text.drop (k + 5) with
    | nil => rw [hb2] at hc; simp at hc
    | cons d v =>
      rw [hb2] at hc hss2
      have hdc : d = c := by simpa using hc
      rw [singleSpaced, Bool.and_eq_true] at hss2
      have h1 := hss2.1
      cases hdw : isWsp d with
      | false => rw [← hdc]; exact hdw
      | true =>
        exfalso
        rw [hdw] at h1
        simp [isWsp] at h1
  have hbcls : (text.drop (k + 5)).all isClsChar = true := by
    rw [List.all_eq_true] at hcls ⊢
    intro c hc
    exact hcls c (List.Sublist.mem hc (List.drop_sublist _ _))
  have htne : text ≠ [] := by
    intro h
    rw [h] at hk5le
    simp at hk5le
  have hth : ∀ c, text.head? = some c → isWsp c = false := by
    intro c hc
    cases hw : isWsp c with
    | false => rfl
    | true =>
      exfalso
      exact hhead c hc (htm c (mem_of_headQ hc) hw)
  have hmain : matchToks patCompare ("compare rainfall between ".data ++ text) =
      some [text.take k, text.drop (k + 5)] := by
    show matchToks (Tok.lit "compare".data ::
        [Tok.ws, Tok.lit "rainfall".data, Tok.ws, Tok.lit "between".data,
         Tok.ws, Tok.cls, Tok.ws, Tok.lit "and".data, Tok.ws, Tok.cls])
      ("compare".data ++ (' ' :: 'r' :: ("ainfall".data ++
        (' ' :: 'b' :: ("etween".data ++ (' ' :: text)))))) = _
    rw [matchToks_lit_step]
    rw [matchToks_ws_step (c := 'r') ("ainfall".data ++
      (' ' :: 'b' :: ("etween".data ++ (' ' :: text)))) _ (by decide)]
    show matchToks (Tok.lit "rainfall".data ::
        [Tok.ws, Tok.lit "between".data, Tok.ws, Tok.cls, Tok.ws,
         Tok.lit "and".data, Tok.ws, Tok.cls])
      ("rainfall".data ++ (' ' :: 'b' :: ("etween".data ++ (' ' :: text)))) = _
    rw [matchToks_lit_step]
    rw [matchToks_ws_step (c := 'b') ("etween".data ++ (' ' :: text)) _ (by decide)]
    show matchToks (Tok.lit "between".data ::
        [Tok.ws, Tok.cls, Tok.ws, Tok.lit "and".data, Tok.ws, Tok.cls])
      ("between".data ++ (' ' :: text)) = _
    rw [matchToks_lit_step]
    rw [matchToks_ws_step2 [Tok.cls, Tok.ws, Tok.lit "and".data, Tok.ws, Tok.cls]
      htne hth]
    rw [matchToks_cls, takeWhile_eq_self_of_all hcls]
    apply tryCap_eq_of_max
    · intro j hj1 hj2
      cases hres : matchToks [Tok.ws, Tok.lit "and".data, Tok.ws, Tok.cls]
          (text.drop j) with
      | none => rfl
      | some caps =>
        exfalso
        have htmj : ∀ c ∈ text.drop j, isWsp c = true → c = ' ' := by
          intro c hc hw
          exact htm c (List.Sublist.mem hc (List.drop_sublist _ _)) hw
        have hpj := sep_match_isPrefix htmj (singleSpaced_drop hss j) hres
        rw [lastOcc_last hocc hj1 (by decide)] at hpj
        simp at hpj
    · rw [hsplit]
      exact sep_match_at_split hbne hbcls hbhead
    · exact hk1
    · omega
  have hql : ("compare rainfall between ".data ++ text) =
      'c' :: ("ompare rainfall between ".data ++ text) := rfl
  rw [compareMatch, hql, searchToks_cons, ← hql, hmain]
  rfl

/-- Witness for C8: `between x and y and z` splits greedily at the last
`and`, giving states `x and y` and `z`. -/
theorem claim_C8_witness :
    (lastOcc (" and ".data) "x and y and z".data = some 7 ∧
      singleSpaced "x and y and z".data = true) ∧
    compareMatch ("compare rainfall between ".data ++ "x and y and z".data) =
      some (("x and y and z".data).take 7, ("x and y and z".data).drop 12) :=
  ⟨⟨by decide, by decide⟩,
    claim_C8 "x and y and z".data 7 (by decide) (by decide) (by decide)
      (by decide) (by decide) (by decide)⟩

/-! ### Normalization and keyword-exclusion facts for the rain-trend shape -/

theorem lowChar_id_of_state {c : Char} (h : isStateNameChar c = true) : lowChar c = c := by
  rw [lowChar]
  cases hu : isUpperC c with
  | false => rfl
  | true =>
    exfalso
    rw [isStateNameChar, Bool.or_eq_true] at h
    rw [isUpperC, Bool.and_eq_true, decide_eq_true_eq, decide_eq_true_eq] at hu
    rcases h with h | h
    · rw [isLowerC, Bool.and_eq_true, decide_eq_true_eq, decide_eq_true_eq] at h
      omega
    · rw [beq_iff_eq] at h
      subst h
      have h32 : (' ').toNat = 32 := rfl
      rw [h32] at hu
      omega

theorem lowChar_id_of_digit {c : Char} (h : isDigitC c = true) : lowChar c = c := by
  rw [lowChar]
  cases hu : isUpperC c with
  | false => rfl
  | true =>
    exfalso
    rw [isDigitC, Bool.and_eq_true, decide_eq_true_eq, decide_eq_true_eq] at h
    rw [isUpperC, Bool.and_eq_true, decide_eq_true_eq, decide_eq_true_eq] at hu
    omega

theorem lowerL_append (a b : List Char) : lowerL (a ++ b) = lowerL a ++ lowerL b :=
  List.map_append _ _ _

theorem lowerL_state {s : List Char} (h : s.all isStateNameChar = true) :
    lowerL s = s := by
  induction s with
  | nil => rfl
  | cons c t ih =>
    rw [List.all_cons, Bool.and_eq_true] at h
    rw [lowerL, List.map_cons, lowChar_id_of_state h.1]
    have h2 := ih h.2
    rw [lowerL] at h2
    rw [h2]

theorem lowerL_digits {s : List Char} (h : s.all isDigitC = true) : lowerL s = s := by
  induction s with
  | nil => rfl
  | cons c t ih =>
    rw [List.all_cons, Bool.and_eq_true] at h
    rw [lowerL, List.map_cons, lowChar_id_of_digit h.1]
    have h2 := ih h.2
    rw [lowerL] at h2
    rw [h2]

theorem dropWhile_eq_self_of_head {l : List Char}
    (h : ∀ c, l.head? = some c → isWsp c = false) : l.dropWhile isWsp = l := by
  cases l with
  | nil => rfl
  | cons c t =>
    rw [List.dropWhile_cons_of_neg]
    simp [h c rfl]

theorem stripL_eq_self {l : List Char}
    (hh : ∀ c, l.head? = some c → isWsp c = false)
    (hl : ∀ c, l.getLast? = some c → isWsp c = false) : stripL l = l := by
  rw [stripL, dropWhile_eq_self_of_head hh]
  have h2 : l.reverse.dropWhile isWsp = l.reverse := by
    apply dropWhile_eq_self_of_head
    intro c hc
    rw [List.head?_reverse] at hc
    exact hl c hc
  rw [h2, List.reverse_reverse]

theorem not_mem_of_all_ne {w : List Char} {c0 : Char}
    (hw : w.all (fun ch => !(ch == c0)) = true) : c0 ∉ w := by
  rw [List.all_eq_true] at hw
  intro hmem
  have := hw c0 hmem
  simp at this

/-- No occurrence of a space-free, digit-free keyword `w` inside the whole
rain-trend question shape, given that `w` occurs in none of the fixed
skeleton pieces nor in the state segment. -/
theorem keyword_not_in_shape {w s ds : List Char}
    (hA : containsSub w "trend of rainfall in ".data = false)
    (hB1 : containsSub w " for last ".data = false)
    (hB2 : containsSub w " years".data = false)
    (hs : containsSub w s = false)
    (hnd : w.all (fun ch => !(isDigitC ch)) = true)
    (hnsp : w.all (fun ch => !(ch == ' ')) = true)
    (hd : ds.all isDigitC = true) :
    containsSub w ("trend of rainfall in ".data ++
      (s ++ (" for last ".data ++ (ds ++ " years".data)))) = false := by
  have hwsp : ' ' ∉ w := not_mem_of_all_ne hnsp
  by_contra hcon
  rw [Bool.not_eq_false] at hcon
  rcases containsSub_append_cases hcon with h | h |
    ⟨w1, w2, hsp, hne1, hne2, hX1, hpre⟩
  · rw [h] at hA
    exact absurd hA (by simp)
  · rcases containsSub_append_cases h with h2 | h2 |
      ⟨w1, w2, hsp, hne1, hne2, hX1, hpre⟩
    · rw [h2] at hs
      exact absurd hs (by simp)
    · rcases containsSub_append_cases h2 with h3 | h3 |
        ⟨w1, w2, hsp, hne1, hne2, hX1, hpre⟩
      · rw [h3] at hB1
        exact absurd hB1 (by simp)
      · rcases containsSub_append_cases h3 with h4 | h4 |
          ⟨w1, w2, hsp, hne1, hne2, hX1, hpre⟩
        · have hall := containsSub_all h4 hd
          cases w with
          | nil => exact absurd hA (by decide)
          | cons c tw =>
            rw [List.all_cons, Bool.and_eq_true] at hall hnd
            rw [hall.1] at hnd
            have := hnd.1
            simp at this
        · rw [h4] at hB2
          exact absurd hB2 (by simp)
        · exact no_straddle_head hsp hne2 hpre (by decide) hwsp
      · exact no_straddle_last hsp hne1 hX1 (by decide) hwsp
    · exact no_straddle_head hsp hne2 hpre rfl hwsp
  · exact no_straddle_last hsp hne1 hX1 (by decide) hwsp

/-- Claim C1 as amended: for any state name of lowercase letters and spaces
that does not embed a template keyword (`top`, `over`, `compare`) and any
digit string N, the question `trend of rainfall in <state> for last <N>
years` matches none of the three templates, so `plan_query` returns the
unknown intent and the pipeline answers with the fixed help text — there is
no `rain_trend` intent in this variant. -/
theorem claim_C1_amended (t : Tables) (s ds : List Char)
    (hs : s.all isStateNameChar = true)
    (hstop : containsSub "top".data s = false)
    (hsover : containsSub "over".data s = false)
    (hscomp : containsSub "compare".data s = false)
    (hd : ds.all isDigitC = true) :
    planQuery t ("trend of rainfall in ".data ++
      (s ++ (" for last ".data ++ (ds ++ " years".data)))) = Plan.unknown ∧
    ask t ("trend of rainfall in ".data ++
      (s ++ (" for last ".data ++ (ds ++ " years".data)))) = Narr.help := by
  have hlow : lowerL ("trend of rainfall in ".data ++
      (s ++ (" for last ".data ++ (ds ++ " years".data)))) =
      "trend of rainfall in ".data ++
        (s ++ (" for last ".data ++ (ds ++ " years".data))) := by
    rw [lowerL_append, lowerL_append, lowerL_append, lowerL_append,
      lowerL_state hs, lowerL_digits hd,
      (by decide : lowerL "trend of rainfall in ".data = "trend of rainfall in ".data),
      (by decide : lowerL " for last ".data = " for last ".data),
      (by decide : lowerL " years".data = " years".data)]
  have hne4 : ds ++ " years".data ≠ [] := by
    intro h
    exact absurd (List.append_eq_nil.mp h).2 (by decide)
  have hne3 : " for last ".data ++ (ds ++ " years".data) ≠ [] := by
    intro h
    exact absurd (List.append_eq_nil.mp h).2 hne4
  have hne2 : s ++ (" for last ".data ++ (ds ++ " years".data)) ≠ [] := by
    intro h
    exact absurd (List.append_eq_nil.mp h).2 hne3
  have hstrip : stripL ("trend of rainfall in ".data ++
      (s ++ (" for last ".data ++ (ds ++ " years".data)))) =
      "trend of rainfall in ".data ++
        (s ++ (" for last ".data ++ (ds ++ " years".data))) := by
    apply stripL_eq_self
    · intro c hc
      have ht : 't' = c := by simpa using hc
      rw [← ht]
      rfl
    · intro c hc
      rw [List.getLast?_append_of_ne_nil _ hne2, List.getLast?_append_of_ne_nil _ hne3,
        List.getLast?_append_of_ne_nil _ hne4,
        List.getLast?_append_of_ne_nil _ (by decide : (" years".data : List Char) ≠ [])]
        at hc
      have hse : 's' = c := by
        have he : (" years".data : List Char).getLast? = some 's' := by decide
        rw [he] at hc
        simpa using hc
      rw [← hse]
      rfl
  have hnorm : stripL (lowerL ("trend of rainfall in ".data ++
      (s ++ (" for last ".data ++ (ds ++ " years".data))))) =
      "trend of rainfall in ".data ++
        (s ++ (" for last ".data ++ (ds ++ " years".data))) := by
    rw [hlow, hstrip]
  have hsTop : searchToks patTop ("trend of rainfall in ".data ++
      (s ++ (" for last ".data ++ (ds ++ " years".data)))) = none :=
    searchToks_none_of_no_lit (by decide)
      (keyword_not_in_shape (by decide) (by decide) (by decide) hstop
        (by decide) (by decide) hd)
  have hsTrend : searchToks patTrend ("trend of rainfall in ".data ++
      (s ++ (" for last ".data ++ (ds ++ " years".data)))) = none :=
    searchToks_none_of_no_lit (w := "over".data) (by decide)
      (keyword_not_in_shape (by decide) (by decide) (by decide) hsover
        (by decide) (by decide) hd)
  have hsComp : searchToks patCompare ("trend of rainfall in ".data ++
      (s ++ (" for last ".data ++ (ds ++ " years".data)))) = none :=
    searchToks_none_of_no_lit (w := "compare".data) (by decide)
      (keyword_not_in_shape (by decide) (by decide) (by decide) hscomp
        (by decide) (by decide) hd)
  have hplan : planQuery t ("trend of rainfall in ".data ++
      (s ++ (" for last ".data ++ (ds ++ " years".data)))) = Plan.unknown := by
    simp only [planQuery, hnorm, topMatch, trendMatch, compareMatch,
      hsTop, hsTrend, hsComp]
  refine ⟨hplan, ?_⟩
  rw [ask, hplan]
  rfl

/-- Witness for C1: the concrete state `punjab` and window `5`. -/
theorem claim_C1_witness :
    (("punjab".data).all isStateNameChar = true ∧
      containsSub "top".data "punjab".data = false ∧
      containsSub "over".data "punjab".data = false ∧
      containsSub "compare".data "punjab".data = false ∧
      ("5".data).all isDigitC = true) ∧
    (planQuery storeJoin ("trend of rainfall in ".data ++
        ("punjab".data ++ (" for last ".data ++ ("5".data ++ " years".data)))) =
      Plan.unknown ∧
     ask storeJoin ("trend of rainfall in ".data ++
        ("punjab".data ++ (" for last ".data ++ ("5".data ++ " years".data)))) =
      Narr.help) :=
  ⟨⟨by decide, by decide, by decide, by decide, by decide⟩,
    claim_C1_amended storeJoin "punjab".data "5".data (by decide) (by decide)
      (by decide) (by decide) (by decide)⟩

end BharatQA
